import Mathlib

/-! Verification of the Minesweeper core: board utilities from
`src/_util/grid.ts`, solver and hint routines from `src/app/AiBehavior.tsx`,
and orchestrator primitives from `src/app/page.tsx`, checked against the
natural-language specification.  Boards are embedded as total functions from
coordinates to cells; the in-place mutations of the TypeScript code become
functional updates, the capability bundle (`Ctx`) becomes a read-only record
plus an explicit trace of emitted effects, and each call to `Math.random`
becomes an explicit parameter (an index pick, or a stream of sampled
coordinates for `placeMines`). -/

namespace Minesweeper

/-- `Cell` from `grid.ts`.  The positional `row`/`col` fields are display
metadata that the game logic never reads; they are omitted. -/
structure Cell where
  isMine : Bool
  adjacent : Int
  revealed : Bool
  flagged : Bool
deriving DecidableEq, Repr

instance : Inhabited Cell := ⟨⟨false, 0, false, false⟩⟩

/-- A board is a total assignment of cells to coordinates.  The game only
ever reads or writes coordinates below the grid size `n`, which is threaded
separately (it is `board.length` resp. `gridSize` in the source). -/
def Board : Type := Nat → Nat → Cell

instance : Inhabited Board := ⟨fun _ _ => default⟩

/-- Functional update of one cell (the TypeScript code mutates the cell
object in place). -/
def setCell (b : Board) (r c : Nat) (f : Cell → Cell) : Board :=
  fun r' c' => if r' = r ∧ c' = c then f (b r c) else b r' c'

/-- All in-bounds coordinates in row-major order, matching the
`for r … for c …` scans and `board.flat()` of the source. -/
def allCells (n : Nat) : List (Nat × Nat) :=
  (List.range n).flatMap (fun r => (List.range n).map (fun c => (r, c)))

/-- `createEmptyBoard` from `grid.ts`: all cells non-mine, `adjacent = 0`,
covered, unflagged (the function model needs no dimensions: every
coordinate holds the default cell). -/
def createEmptyBoard : Board := fun _ _ => ⟨false, 0, false, false⟩

/-- `cloneBoard` from `grid.ts` produces an independent copy; with
functional boards this is the identity. -/
def cloneBoard (b : Board) : Board := b

/-- Number of mines on the board. -/
def mineCnt (n : Nat) (b : Board) : Nat :=
  (allCells n).countP (fun p => (b p.1 p.2).isMine)

/-- Number of flagged cells, `next.flat().filter(c => c.flagged).length`
in the source. -/
def flaggedCnt (n : Nat) (b : Board) : Nat :=
  (allCells n).countP (fun p => (b p.1 p.2).flagged)

/-- `checkWin` from `page.tsx`: every mined cell unrevealed, every safe
cell revealed; flags are irrelevant. -/
def checkWin (n : Nat) (b : Board) : Bool :=
  (allCells n).all (fun p =>
    if (b p.1 p.2).isMine then !(b p.1 p.2).revealed else (b p.1 p.2).revealed)

/-- The first-click exclusion test of `placeMines`:
`Math.abs(r - exclude.r) <= 1 && Math.abs(c - exclude.c) <= 1`. -/
def inZone (p ex : Nat × Nat) : Bool :=
  ((p.1 : Int) - ex.1).natAbs ≤ 1 && ((p.2 : Int) - ex.2).natAbs ≤ 1

/-- Mark one cell as a mine. -/
def setMine (b : Board) (r c : Nat) : Board :=
  setCell b r c (fun x => { x with isMine := true })

/-- The rejection-sampling loop of `placeMines`.  `samples` is the stream
of `(Math.floor(Math.random()*rows), Math.floor(Math.random()*cols))`
draws; the second component of the result is the number of mines still to
place when the loop stops (0 iff the `while (placed < mines)` loop exited
normally; the source loops forever rather than run out of draws, so a
nonzero remainder marks a run that the source would not finish). -/
def placeMinesGo (ex : Nat × Nat) :
    List (Nat × Nat) → Board → Nat → Board × Nat
  | _, b, 0 => (b, 0)
  | [], b, Nat.succ k => (b, k + 1)
  | (r, c) :: rest, b, Nat.succ k =>
    if inZone (r, c) ex then placeMinesGo ex rest b (k + 1)
    else if (b r c).isMine then placeMinesGo ex rest b (k + 1)
    else placeMinesGo ex rest (setMine b r c) k

/-- `placeMines(board, mines, exclude)` from `grid.ts`, with the random
draws made explicit. -/
def placeMines (samples : List (Nat × Nat)) (b : Board) (mines : Nat)
    (ex : Nat × Nat) : Board :=
  (placeMinesGo ex samples b mines).1

/-- `dirs = [-1, 0, 1]` from `grid.ts` / `AiBehavior.tsx`. -/
def dirs : List Int := [-1, 0, 1]

/-- The eight neighbor offsets produced by the
`for dr of dirs / for dc of dirs` double loop with the `(0,0)` skip. -/
def neighborOffsets : List (Int × Int) :=
  (dirs.product dirs).filter (fun d => !(d.1 == 0 && d.2 == 0))

/-- Bounds-checked neighbor coordinate:
`nr = r + dr; nc = c + dc; if (nr >= 0 && nr < n && nc >= 0 && nc < n)`. -/
def offsetCoord (n r c : Nat) (d : Int × Int) : Option (Nat × Nat) :=
  let nr : Int := (r : Int) + d.1
  let nc : Int := (c : Int) + d.2
  if 0 ≤ nr ∧ nr < (n : Int) ∧ 0 ≤ nc ∧ nc < (n : Int) then
    some (nr.toNat, nc.toNat)
  else none

/-- The in-bounds 8-neighborhood of `(r, c)`, in the iteration order of the
source's nested loops. -/
def neighborsOf (n r c : Nat) : List (Nat × Nat) :=
  neighborOffsets.filterMap (offsetCoord n r c)

/-- The neighbor-mine count computed by `computeAdjacency`'s inner loop. -/
def adjCount (n : Nat) (b : Board) (r c : Nat) : Int :=
  ((neighborsOf n r c).countP (fun p => (b p.1 p.2).isMine) : Nat)

/-- `computeAdjacency(board)` from `grid.ts`.  The source mutates the board
row by row, but the loop body reads only `isMine` (never `adjacent`) and
writes only `adjacent`, so the sequential update equals this pointwise
one. -/
def computeAdjacency (n : Nat) (b : Board) : Board :=
  fun r c =>
    if r < n ∧ c < n then
      if (b r c).isMine then { b r c with adjacent := -1 }
      else { b r c with adjacent := adjCount n b r c }
    else b r c

/-- Reveal one cell. -/
def revealAt (b : Board) (r c : Nat) : Board :=
  setCell b r c (fun x => { x with revealed := true })

/-- The neighbors pushed by `floodFill` when the popped cell has
`adjacent === 0`: in-bounds, not revealed and not a mine, read from the
live (just-updated) board. -/
def pushNeighbors (n : Nat) (b : Board) (rr cc : Nat) : List (Nat × Nat) :=
  (neighborsOf n rr cc).filter
    (fun p => !(b p.1 p.2).revealed && !(b p.1 p.2).isMine)

/-- The explicit-stack loop of `floodFill`.  The head of the list is the
top of the stack (`stack.pop()` takes the most recently pushed entry, so a
push of the neighbor list appends its reverse at the head).  The loop
terminates because each iteration either shrinks the stack or reveals a
previously unrevealed cell, so the measure
`9 * (unrevealed cells) + stack length` strictly decreases; `fuel` is any
upper bound on the number of iterations. -/
def floodFillAux (n : Nat) : Nat → Board → List (Nat × Nat) → Board
  | 0, b, _ => b
  | Nat.succ _, b, [] => b
  | Nat.succ fuel, b, (rr, cc) :: stack =>
    let cur := b rr cc
    if cur.revealed || cur.flagged then floodFillAux n fuel b stack
    else
      let b' := revealAt b rr cc
      if cur.adjacent = 0 then
        floodFillAux n fuel b' ((pushNeighbors n b' rr cc).reverse ++ stack)
      else floodFillAux n fuel b' stack

/-- Iteration bound sufficient for the measure above on an `n × n` board. -/
def floodFillFuel (n : Nat) : Nat := 9 * n * n + 9

/-- `floodFill(board, size, row, col)` from `grid.ts`. -/
def floodFill (n : Nat) (b : Board) (row col : Nat) : Board :=
  floodFillAux n (floodFillFuel n) b [(row, col)]

/-- `revealMines` from `page.tsx`: mark every in-bounds mine revealed. -/
def revealMinesBoard (n : Nat) (b : Board) : Board :=
  fun r c =>
    if r < n ∧ c < n ∧ (b r c).isMine = true then
      { b r c with revealed := true }
    else b r c

/-- Terminal states passed to `setGameOver` by the solvers. -/
inductive GameOutcome
  | lost
  | won
deriving DecidableEq, Repr

/-- One call on the capability bundle's mutators.  A solver invocation is
modelled as the list of such calls it makes, in order. -/
inductive Effect where
  | setBoard (b : Board)
  | setStarted (v : Bool)
  | setFlagsLeft (k : Int)
  | setGameOver (s : GameOutcome)
  | revealMinesEff

/-- The read-only part of the capability bundle `Ctx` from
`AiBehavior.tsx`; `checkWin` is the orchestrator's concrete predicate
(modelled by `checkWin` above, as `page.tsx` always supplies it) and the
mutators become the returned effect trace. -/
structure Ctx where
  board : Board
  gridSize : Nat
  mines : Nat
  started : Bool

/-- Payloads of the `setBoard` calls in a trace: the boards the invocation
publishes. -/
def publishedBoards (tr : List Effect) : List Board :=
  tr.filterMap (fun e =>
    match e with
    | Effect.setBoard b => some b
    | _ => none)

/-- Does this effect set the terminal state to "lost"? -/
def Effect.isLostB : Effect → Bool
  | Effect.setGameOver GameOutcome.lost => true
  | _ => false

/-- Does this effect set any terminal state? -/
def Effect.isGameOverB : Effect → Bool
  | Effect.setGameOver _ => true
  | _ => false

/-- Every `setFlagsLeft` payload in this effect is nonnegative. -/
def Effect.flagNonnegB : Effect → Bool
  | Effect.setFlagsLeft k => decide (0 ≤ k)
  | _ => true

/-- The common `if (checkWin(next)) { setGameOver("won"); revealMines(); }`
tail shared by all solver commit points. -/
def winEffects (n : Nat) (b : Board) : List Effect :=
  if checkWin n b then [Effect.setGameOver GameOutcome.won, Effect.revealMinesEff]
  else []

/-- The repeated "open the chosen target" block: if the chosen cell is a
mine, reveal it, publish, set "lost" and reveal all mines; otherwise
flood-fill from it, publish, and run the win check.  Returns the working
board together with the emitted effects. -/
def openTarget (n : Nat) (b : Board) (rr cc : Nat) : Board × List Effect :=
  if (b rr cc).isMine then
    let b' := revealAt b rr cc
    (b', [Effect.setBoard b', Effect.setGameOver GameOutcome.lost,
          Effect.revealMinesEff])
  else
    let b' := floodFill n b rr cc
    (b', [Effect.setBoard b'] ++ winEffects n b')

/-- The hidden, unflagged cells (`!cell.revealed && !cell.flagged`), in the
row-major order the candidate-collection loops use. -/
def hiddenUnflagged (n : Nat) (b : Board) : List (Nat × Nat) :=
  (allCells n).filter (fun p => !(b p.1 p.2).revealed && !(b p.1 p.2).flagged)

/-- The flagged, covered cells collected by the deadlock-recovery loops. -/
def flaggedCovered (n : Nat) (b : Board) : List (Nat × Nat) :=
  (allCells n).filter (fun p => (b p.1 p.2).flagged && !(b p.1 p.2).revealed)

/-- `candidates[Math.floor(Math.random() * candidates.length)]`, with the
random draw abstracted into the index parameter `pick`. -/
def pickIn (l : List (Nat × Nat)) (pick : Nat) : Nat × Nat :=
  l.getD (pick % l.length) (0, 0)

/-- `easyAi` from `AiBehavior.tsx` (the current version, which returns
immediately when the board already satisfies `checkWin`). -/
def easyAi (pick : Nat) (samples : List (Nat × Nat)) (ctx : Ctx) :
    List Effect :=
  let n := ctx.gridSize
  if checkWin n ctx.board then []
  else
    let next := cloneBoard ctx.board
    let candidates := hiddenUnflagged n next
    if candidates.isEmpty then []
    else
      let rc := pickIn candidates pick
      let b1 :=
        if ctx.started then next
        else computeAdjacency n (placeMines samples next ctx.mines rc)
      let startEff := if ctx.started then [] else [Effect.setStarted true]
      startEff ++ (openTarget n b1 rc.1 rc.2).2

/-- Insertion into a JavaScript `Set`, which keeps first-insertion order. -/
def addOnce (l : List (Nat × Nat)) (x : Nat × Nat) : List (Nat × Nat) :=
  if x ∈ l then l else l ++ [x]

/-- Insert several coordinates in order. -/
def addAll (l : List (Nat × Nat)) (xs : List (Nat × Nat)) :
    List (Nat × Nat) :=
  xs.foldl addOnce l

/-- The hidden, unflagged neighbors of `(r, c)` gathered by the rule
scans. -/
def hiddenNbrs (n : Nat) (b : Board) (r c : Nat) : List (Nat × Nat) :=
  (neighborsOf n r c).filter
    (fun p => !(b p.1 p.2).revealed && !(b p.1 p.2).flagged)

/-- The count of flagged neighbors of `(r, c)` gathered by the rule
scans. -/
def flaggedNbrCnt (n : Nat) (b : Board) (r c : Nat) : Nat :=
  (neighborsOf n r c).countP (fun p => (b p.1 p.2).flagged)

/-- Rule 1 scan: for every revealed cell with positive adjacency whose
hidden neighbor count equals `adjacent - flagged`, add all its hidden
neighbors to the flag set. -/
def rule1Bucket (n : Nat) (b : Board) : List (Nat × Nat) :=
  (allCells n).foldl
    (fun acc p =>
      let cell := b p.1 p.2
      if cell.revealed && decide (0 < cell.adjacent)
          && decide (((hiddenNbrs n b p.1 p.2).length : Int) =
                cell.adjacent - (flaggedNbrCnt n b p.1 p.2 : Int))
          && !(hiddenNbrs n b p.1 p.2).isEmpty then
        addAll acc (hiddenNbrs n b p.1 p.2)
      else acc)
    []

/-- Rule 2 scan: for every revealed cell with positive adjacency whose
flagged neighbor count equals its adjacency, add all its hidden neighbors
to the open set. -/
def rule2Bucket (n : Nat) (b : Board) : List (Nat × Nat) :=
  (allCells n).foldl
    (fun acc p =>
      let cell := b p.1 p.2
      if cell.revealed && decide (0 < cell.adjacent)
          && decide ((flaggedNbrCnt n b p.1 p.2 : Int) = cell.adjacent)
          && !(hiddenNbrs n b p.1 p.2).isEmpty then
        addAll acc (hiddenNbrs n b p.1 p.2)
      else acc)
    []

/-- Zero-expansion scan: every hidden, unflagged neighbor of a revealed
zero-adjacency cell. -/
def zeroBucket (n : Nat) (b : Board) : List (Nat × Nat) :=
  (allCells n).foldl
    (fun acc p =>
      let cell := b p.1 p.2
      if cell.revealed && decide (cell.adjacent = 0) then
        addAll acc (hiddenNbrs n b p.1 p.2)
      else acc)
    []

/-- Apply the flag bucket: each collected cell that is not revealed gets
`flagged := true`.  The source iterates and checks
`!cell.revealed && !cell.flagged` before setting the flag; since flagging
one cell changes no other cell's test, the sequential loop equals this
pointwise update. -/
def applyFlags (b : Board) (toFlag : List (Nat × Nat)) : Board :=
  fun r c =>
    if (r, c) ∈ toFlag ∧ (b r c).revealed = false then
      { b r c with flagged := true }
    else b r c

/-- Did the flag-application loop set at least one new flag? -/
def didFlagB (b : Board) (toFlag : List (Nat × Nat)) : Bool :=
  toFlag.any (fun p => !(b p.1 p.2).revealed && !(b p.1 p.2).flagged)

/-- `Math.max(0, mines - placed)` with `placed` the number of flags on the
working board. -/
def flagsLeftVal (mines n : Nat) (b : Board) : Int :=
  max 0 ((mines : Int) - (flaggedCnt n b : Int))

/-- The `setFlagsLeft` emission after applying the flag bucket, guarded by
`if (toFlag.size > 0)`. -/
def flagEffs (mines n : Nat) (toFlag : List (Nat × Nat)) (b1 : Board) :
    List Effect :=
  if toFlag.isEmpty then [] else [Effect.setFlagsLeft (flagsLeftVal mines n b1)]

/-- Result of the `openOne` helper: the working board afterwards, whether
an entry was processed (the helper's boolean result), and the effects it
emitted itself (nonempty only when it mis-opened a mine). -/
structure OpenOut where
  board : Board
  used : Bool
  trace : List Effect

/-- `openOne` from `mediumAi`/`hardAi`: take the first bucket entry that is
still hidden and unflagged; if it is a mine, reveal it, publish, set
"lost" and reveal all mines; otherwise flood-fill from it. -/
def openOne (n : Nat) (b : Board) (bucket : List (Nat × Nat)) : OpenOut :=
  match bucket.find? (fun p => !(b p.1 p.2).revealed && !(b p.1 p.2).flagged) with
  | none => ⟨b, false, []⟩
  | some p =>
    if (b p.1 p.2).isMine then
      let b' := revealAt b p.1 p.2
      ⟨b', true, [Effect.setBoard b', Effect.setGameOver GameOutcome.lost,
                  Effect.revealMinesEff]⟩
    else ⟨floodFill n b p.1 p.2, true, []⟩

/-- After a successful `openOne`: publish and run the win check. -/
def openCommit (n : Nat) (o : OpenOut) : List Effect :=
  o.trace ++ [Effect.setBoard o.board] ++ winEffects n o.board

/-- The shared tail of `mediumAi` and `hardAi` (the source duplicates this
code verbatim between the two): guess a random hidden, unflagged cell with
first-click safety, or un-flag one covered flag and open it, or commit a
flag-only turn. -/
def randomFallback (pick : Nat) (samples : List (Nat × Nat)) (ctx : Ctx)
    (b1 : Board) (flagEff : List Effect) (didFlag : Bool) : List Effect :=
  let n := ctx.gridSize
  let candidates := hiddenUnflagged n b1
  if !candidates.isEmpty then
    let rc := pickIn candidates pick
    let b2 :=
      if ctx.started then b1
      else computeAdjacency n (placeMines samples b1 ctx.mines rc)
    let startEff := if ctx.started then [] else [Effect.setStarted true]
    flagEff ++ startEff ++ (openTarget n b2 rc.1 rc.2).2
  else
    let fc := flaggedCovered n b1
    if !fc.isEmpty then
      let rc := pickIn fc pick
      let b2 := setCell b1 rc.1 rc.2 (fun x => { x with flagged := false })
      flagEff ++ [Effect.setFlagsLeft (flagsLeftVal ctx.mines n b2)]
        ++ (openTarget n b2 rc.1 rc.2).2
    else if didFlag then flagEff ++ [Effect.setBoard b1] ++ winEffects n b1
    else flagEff

/-- `mediumAi` from `AiBehavior.tsx`, with the random draws abstracted into
`pick` (at most one index draw happens per invocation) and `samples`. -/
def mediumAi (pick : Nat) (samples : List (Nat × Nat)) (ctx : Ctx) :
    List Effect :=
  let n := ctx.gridSize
  let next := cloneBoard ctx.board
  let toFlag := rule1Bucket n next
  let toOpenRule := rule2Bucket n next
  let toOpenZero := zeroBucket n next
  let b1 := applyFlags next toFlag
  let flagEff := flagEffs ctx.mines n toFlag b1
  let o1 := openOne n b1 (rule2Bucket n b1)
  if o1.used then flagEff ++ openCommit n o1
  else
    let o2 := openOne n b1 toOpenRule
    if o2.used then flagEff ++ openCommit n o2
    else
      let o3 := openOne n b1 toOpenZero
      if o3.used then flagEff ++ openCommit n o3
      else randomFallback pick samples ctx b1 flagEff (didFlagB next toFlag)

/-- Return values of `hint` (`"none"` is modelled as `noSafe`; the `void`
return only happens when the capability bundle is missing, which the model
excludes). -/
inductive HintRes
  | good
  | done
  | noSafe
deriving DecidableEq, Repr

/-- Result of a `hint` invocation: its return value, the new value of the
module-scoped `hintUses` counter, and the emitted effects. -/
structure HintOut where
  res : HintRes
  uses : Nat
  trace : List Effect

/-- `MAX_HINTS` from `AiBehavior.tsx`. -/
def maxHints : Nat := 3

/-- `hint` from `AiBehavior.tsx`; `uses` is the module-scoped `hintUses`
counter on entry. -/
def hint (uses pick : Nat) (samples : List (Nat × Nat)) (ctx : Ctx) :
    HintOut :=
  if maxHints ≤ uses then ⟨HintRes.done, uses, []⟩
  else
    let n := ctx.gridSize
    if checkWin n ctx.board then ⟨HintRes.done, uses, []⟩
    else
      let next := cloneBoard ctx.board
      let candidates := hiddenUnflagged n next
      if candidates.isEmpty then ⟨HintRes.noSafe, uses, []⟩
      else if !ctx.started then
        let rc := pickIn candidates pick
        let b1 := computeAdjacency n (placeMines samples next ctx.mines rc)
        let b2 := floodFill n b1 rc.1 rc.2
        ⟨HintRes.good, uses + 1, [Effect.setStarted true, Effect.setBoard b2]⟩
      else
        let safe := candidates.filter (fun p => !(next p.1 p.2).isMine)
        if safe.isEmpty then ⟨HintRes.noSafe, uses, []⟩
        else
          let rc := pickIn safe pick
          let b2 := floodFill n next rc.1 rc.2
          if checkWin n b2 then
            ⟨HintRes.good, 0,
             [Effect.setBoard b2, Effect.setGameOver GameOutcome.won,
              Effect.revealMinesEff]⟩
          else ⟨HintRes.good, uses + 1, [Effect.setBoard b2]⟩

/-- The guard of the 1-2-1 scan: all three cells revealed with adjacency
values 1, 2, 1. -/
def is121 (b : Board) (f1 center f2 : Nat × Nat) : Bool :=
  (b f1.1 f1.2).revealed && (b center.1 center.2).revealed
    && (b f2.1 f2.2).revealed && decide ((b f1.1 f1.2).adjacent = 1)
    && decide ((b center.1 center.2).adjacent = 2)
    && decide ((b f2.1 f2.2).adjacent = 1)

/-- The "center-exclusive" candidates of the 1-2-1 scan: neighbors of the
center, minus all neighbors of either flank, filtered to hidden and
unflagged cells (the source forms a `Set` of the center's neighbors,
deletes both flank neighborhoods, and filters). -/
def exclusives121 (n : Nat) (b : Board) (center f1 f2 : Nat × Nat) :
    List (Nat × Nat) :=
  ((neighborsOf n center.1 center.2).filter (fun p =>
      decide (p ∉ neighborsOf n f1.1 f1.2)
        && decide (p ∉ neighborsOf n f2.1 f2.2))).filter
    (fun p => !(b p.1 p.2).revealed && !(b p.1 p.2).flagged)

/-- One step of the 1-2-1 scan at a given center/flank triple. -/
def add121 (n : Nat) (b : Board) (acc : List (Nat × Nat))
    (center f1 f2 : Nat × Nat) : List (Nat × Nat) :=
  if is121 b f1 center f2 then
    if (exclusives121 n b center f1 f2).length = 2 then
      addAll acc (exclusives121 n b center f1 f2)
    else acc
  else acc

/-- Centers visited by the horizontal 1-2-1 scan:
`for r in [0, n); for c in [1, n-1)`. -/
def h121Centers (n : Nat) : List (Nat × Nat) :=
  (List.range n).flatMap (fun r => (List.range (n - 2)).map (fun i => (r, i + 1)))

/-- Centers visited by the vertical 1-2-1 scan:
`for r in [1, n-1); for c in [0, n)`. -/
def v121Centers (n : Nat) : List (Nat × Nat) :=
  (List.range (n - 2)).flatMap (fun i => (List.range n).map (fun c => (i + 1, c)))

/-- The flag bucket of `hardAi`: the Rule 1 results followed by the
horizontal then vertical 1-2-1 results. -/
def hardToFlag (n : Nat) (b : Board) : List (Nat × Nat) :=
  let afterR1 := rule1Bucket n b
  let afterH := (h121Centers n).foldl
    (fun acc p => add121 n b acc p (p.1, p.2 - 1) (p.1, p.2 + 1)) afterR1
  (v121Centers n).foldl
    (fun acc p => add121 n b acc p (p.1 - 1, p.2) (p.1 + 1, p.2)) afterH

/-- The working board of `hardAi` after applying its flag deductions. -/
def hardFlagged (n : Nat) (b : Board) : Board :=
  applyFlags b (hardToFlag n b)

/-- `hardAi` after its first-move shortcut: deduction scans, flag
application, the three `openOne` attempts, the ground-truth ("cheat")
fallback, and the shared random fallback. -/
def hardAiRest (pick : Nat) (samples : List (Nat × Nat)) (ctx : Ctx) :
    List Effect :=
  let n := ctx.gridSize
  let next := cloneBoard ctx.board
  let toFlag := hardToFlag n next
  let toOpenRule := rule2Bucket n next
  let toOpenZero := zeroBucket n next
  let b1 := hardFlagged n next
  let flagEff := flagEffs ctx.mines n toFlag b1
  let o1 := openOne n b1 (rule2Bucket n b1)
  if o1.used then flagEff ++ openCommit n o1
  else
    let o2 := openOne n b1 toOpenRule
    if o2.used then flagEff ++ openCommit n o2
    else
      let o3 := openOne n b1 toOpenZero
      if o3.used then flagEff ++ openCommit n o3
      else if !ctx.started then
        let cands := hiddenUnflagged n b1
        if !cands.isEmpty then
          let rc := pickIn cands pick
          let b2 := computeAdjacency n (placeMines samples b1 ctx.mines rc)
          flagEff ++ [Effect.setStarted true] ++ (openTarget n b2 rc.1 rc.2).2
        else randomFallback pick samples ctx b1 flagEff (didFlagB next toFlag)
      else
        let safeCands := (hiddenUnflagged n b1).filter
          (fun p => !(b1 p.1 p.2).isMine)
        if !safeCands.isEmpty then
          let rc := pickIn safeCands pick
          let b2 := floodFill n b1 rc.1 rc.2
          flagEff ++ [Effect.setBoard b2] ++ winEffects n b2
        else randomFallback pick samples ctx b1 flagEff (didFlagB next toFlag)

/-- `hardAi` from `AiBehavior.tsx` (the full implementation, not the
placeholder of the older duplicate): first-move shortcut, then the
deduction pipeline of `hardAiRest`. -/
def hardAi (pick : Nat) (samples : List (Nat × Nat)) (ctx : Ctx) :
    List Effect :=
  let n := ctx.gridSize
  let next := cloneBoard ctx.board
  let cands0 := hiddenUnflagged n next
  if !ctx.started && !cands0.isEmpty then
    let rc := pickIn cands0 pick
    let b1 := computeAdjacency n (placeMines samples next ctx.mines rc)
    [Effect.setStarted true] ++ (openTarget n b1 rc.1 rc.2).2
  else hardAiRest pick samples ctx

/-- Reveal monotonicity between two boards: no revealed cell becomes
unrevealed. -/
def revealMono (b b' : Board) : Prop :=
  ∀ r c, (b r c).revealed = true → (b' r c).revealed = true

/-- The Chebyshev-distance-1 neighborhood mine count, written from the
spec's words ("exact count of mines among its up-to-8 grid neighbors") to
compare with the loop-based `adjCount`. -/
def chebyMineCount (n : Nat) (b : Board) (r c : Nat) : Nat :=
  ((allCells n).filter (fun p =>
    p ≠ (r, c) && inZone p (r, c) && (b p.1 p.2).isMine)).length

/-- The hypotheses of the hard solver's ground-truth fallback: none of the
three `openOne` attempts (post-flag Rule 2, original Rule 2,
zero-expansion) produced an open. -/
def hardDeductionFailed (ctx : Ctx) : Prop :=
  (openOne ctx.gridSize (hardFlagged ctx.gridSize ctx.board)
      (rule2Bucket ctx.gridSize (hardFlagged ctx.gridSize ctx.board))).used = false
    ∧ (openOne ctx.gridSize (hardFlagged ctx.gridSize ctx.board)
        (rule2Bucket ctx.gridSize ctx.board)).used = false
    ∧ (openOne ctx.gridSize (hardFlagged ctx.gridSize ctx.board)
        (zeroBucket ctx.gridSize ctx.board)).used = false

/-- The candidate list searched by the hard solver's ground-truth fallback:
hidden, unflagged, non-mine cells of the working (flagged) board. -/
def hardSafeCands (ctx : Ctx) : List (Nat × Nat) :=
  (hiddenUnflagged ctx.gridSize (hardFlagged ctx.gridSize ctx.board)).filter
    (fun p => !((hardFlagged ctx.gridSize ctx.board) p.1 p.2).isMine)

/-- The safe-candidate list of `hint`'s started branch. -/
def hintSafe (ctx : Ctx) : List (Nat × Nat) :=
  (hiddenUnflagged ctx.gridSize ctx.board).filter
    (fun p => !(ctx.board p.1 p.2).isMine)

/-- The cell `hint`'s started branch reveals. -/
def hintPick (ctx : Ctx) (pick : Nat) : Nat × Nat :=
  pickIn (hintSafe ctx) pick

/-! ### Concrete boards used by counterexamples and witnesses -/

/-- Board builder for concrete test boards. -/
def boardOf (l : List (List Cell)) : Board :=
  fun r c => ((l.getD r []).getD c default)

/-- Cell shorthand for concrete boards. -/
def mkCell (m : Bool) (a : Int) (rev fl : Bool) : Cell := ⟨m, a, rev, fl⟩

/-- A 4×4 board that already contains one mine at `(0, 0)` before
`placeMines` runs. -/
def bPre : Board :=
  fun r c => if r = 0 ∧ c = 0 then mkCell true 0 false false
             else mkCell false 0 false false

/-- A 1×1 board whose only cell is an unflagged, unrevealed mine. -/
def bMine1 : Board := fun _ _ => mkCell true (-1) false false

/-- The classic 1-2-1 configuration on a 3×3 board: mines at `(0, 0)` and
`(0, 2)`, rows 1 and 2 revealed, row 0 hidden; all `adjacent` values are
the true neighbor-mine counts. -/
def b121 : Board := boardOf
  [[mkCell true (-1) false false, mkCell false 2 false false,
    mkCell true (-1) false false],
   [mkCell false 1 true false, mkCell false 2 true false,
    mkCell false 1 true false],
   [mkCell false 0 true false, mkCell false 0 true false,
    mkCell false 0 true false]]

/-- Context for the 1-2-1 scenario: 3×3 grid, 2 mines, session started. -/
def ctx121 : Ctx := ⟨b121, 3, 2, true⟩

/-- Does this effect publish a board with no flags at all? -/
def noFlagsPublishedB (n : Nat) (e : Effect) : Bool :=
  match e with
  | Effect.setBoard b => (allCells n).all (fun p => !(b p.1 p.2).flagged)
  | _ => true

/-- A 2×2 board with a flag at `(0, 1)` and a mine at `(1, 1)`. -/
def bW2 : Board := boardOf
  [[mkCell false 1 false false, mkCell false 1 false true],
   [mkCell false 1 false false, mkCell true (-1) false false]]

/-- A 2×2 board with one mine at `(0, 0)`. -/
def bW3 : Board := boardOf
  [[mkCell true 0 false false, mkCell false 0 false false],
   [mkCell false 0 false false, mkCell false 0 false false]]

/-- A started 2×2 position with one hidden mine at `(1, 1)` and every cell
still covered (adjacency already computed). -/
def b5 : Board := boardOf
  [[mkCell false 1 false false, mkCell false 1 false false],
   [mkCell false 1 false false, mkCell true (-1) false false]]

/-- Context for the ground-truth fallback: everything hidden, started. -/
def ctx5 : Ctx := ⟨b5, 2, 1, true⟩

/-- A 1×1 board whose only cell is flagged, covered and safe. -/
def bFlag1 : Board := fun _ _ => mkCell false 0 false true

/-- Context where every hint call returns "none": the sole cell is
flagged, so the candidate list is always empty. -/
def ctxF : Ctx := ⟨bFlag1, 1, 1, true⟩

/-- Context for the first-click hint: empty 4×4 board, 12 mines, not
started. -/
def ctx7 : Ctx := ⟨createEmptyBoard, 4, 12, false⟩

/-- Sample stream placing the 12 mines on every cell outside the exclusion
zone of `(0, 0)` on the 4×4 board. -/
def samples7 : List (Nat × Nat) :=
  [(0, 2), (0, 3), (1, 2), (1, 3), (2, 0), (2, 1), (2, 2), (2, 3),
   (3, 0), (3, 1), (3, 2), (3, 3)]

/-- A started 2×2 position one safe reveal away from winning: mine at
`(1, 1)` hidden, `(0, 0)` and `(0, 1)` revealed, `(1, 0)` still covered. -/
def bW7 : Board := boardOf
  [[mkCell false 1 true false, mkCell false 1 true false],
   [mkCell false 1 false false, mkCell true (-1) false false]]

/-- Context for the winning started-branch hint. -/
def ctxW7 : Ctx := ⟨bW7, 2, 1, true⟩

/-- A 1×1 board already in the winning state. -/
def bWon1 : Board := fun _ _ => mkCell false 0 true false

/-- Context whose board already satisfies the win predicate. -/
def ctx8 : Ctx := ⟨bWon1, 1, 0, true⟩

/-- The payloads of the `setFlagsLeft` calls in a trace. -/
def flagsLeftPayloads (tr : List Effect) : List Int :=
  tr.filterMap (fun e =>
    match e with
    | Effect.setFlagsLeft k => some k
    | _ => none)

/-- A started 3×3 position where Rule 1 flags the mine `(1, 0)` while a
flag already sits on `(2, 2)`, making 2 flags against 1 configured mine:
row 0 fully revealed (adjacency 1, 1, 0), `(1, 1)` revealed with
adjacency 1, the rest covered. -/
def b9 : Board := boardOf
  [[mkCell false 1 true false, mkCell false 1 true false,
    mkCell false 0 true false],
   [mkCell true (-1) false false, mkCell false 1 true false,
    mkCell false 0 false false],
   [mkCell false 1 false false, mkCell false 1 false false,
    mkCell false 0 false true]]

/-- Context for the clamped flag counter: 3×3 grid, 1 mine, started. -/
def ctx9 : Ctx := ⟨b9, 3, 1, true⟩

/-! ### Basic lemmas about boards, cell updates and coordinate lists -/

theorem mem_allCells {n : Nat} {p : Nat × Nat} :
    p ∈ allCells n ↔ p.1 < n ∧ p.2 < n := by
  obtain ⟨r, c⟩ := p
  simp only [allCells, List.mem_flatMap, List.mem_map, List.mem_range]
  constructor
  · rintro ⟨r', hr', c', hc', h⟩
    cases h
    exact ⟨hr', hc'⟩
  · rintro ⟨hr, hc⟩
    exact ⟨r, hr, c, hc, rfl⟩

theorem nodup_allCells (n : Nat) : (allCells n).Nodup := by
  rw [allCells, List.nodup_flatMap]
  refine ⟨fun r _ => ?_, ?_⟩
  · exact (List.nodup_range n).map (fun a b h => (Prod.mk.injEq _ _ _ _ ▸ h).2)
  · refine List.Pairwise.imp ?_ (List.pairwise_lt_range n)
    intro a b hab
    intro x hx hy
    simp only [Function.onFun, List.mem_map] at hx hy
    obtain ⟨c1, _, h1⟩ := hx
    obtain ⟨c2, _, h2⟩ := hy
    rw [← h1] at h2
    cases h2
    exact absurd rfl (Nat.ne_of_lt hab)

theorem setCell_apply (b : Board) (r c : Nat) (f : Cell → Cell) (r' c' : Nat) :
    setCell b r c f r' c' = if r' = r ∧ c' = c then f (b r c) else b r' c' := rfl

theorem revealAt_isMine (b : Board) (rr cc r c : Nat) :
    (revealAt b rr cc r c).isMine = (b r c).isMine := by
  simp only [revealAt, setCell_apply]
  split
  · rename_i h
    rw [h.1, h.2]
  · rfl

theorem revealAt_flagged (b : Board) (rr cc r c : Nat) :
    (revealAt b rr cc r c).flagged = (b r c).flagged := by
  simp only [revealAt, setCell_apply]
  split
  · rename_i h
    rw [h.1, h.2]
  · rfl

theorem revealAt_mono (b : Board) (rr cc r c : Nat)
    (h : (b r c).revealed = true) : (revealAt b rr cc r c).revealed = true := by
  simp only [revealAt, setCell_apply]
  split
  · rfl
  · exact h

theorem revealAt_other (b : Board) (rr cc r c : Nat)
    (h : ¬(r = rr ∧ c = cc)) : revealAt b rr cc r c = b r c := by
  simp only [revealAt, setCell_apply, if_neg h]

/-! ### floodFill invariants -/

theorem floodFillAux_isMine (n : Nat) :
    ∀ (fuel : Nat) (b : Board) (st : List (Nat × Nat)) (r c : Nat),
      (floodFillAux n fuel b st r c).isMine = (b r c).isMine := by
  intro fuel
  induction fuel with
  | zero => intro b st r c; rfl
  | succ fuel ih =>
    intro b st r c
    match st with
    | [] => rfl
    | (rr, cc) :: stack =>
      simp only [floodFillAux]
      split
      · exact ih b stack r c
      · split
        · rw [ih, revealAt_isMine]
        · rw [ih, revealAt_isMine]

theorem floodFillAux_flagged (n : Nat) :
    ∀ (fuel : Nat) (b : Board) (st : List (Nat × Nat)) (r c : Nat),
      (floodFillAux n fuel b st r c).flagged = (b r c).flagged := by
  intro fuel
  induction fuel with
  | zero => intro b st r c; rfl
  | succ fuel ih =>
    intro b st r c
    match st with
    | [] => rfl
    | (rr, cc) :: stack =>
      simp only [floodFillAux]
      split
      · exact ih b stack r c
      · split
        · rw [ih, revealAt_flagged]
        · rw [ih, revealAt_flagged]

theorem floodFillAux_mono (n : Nat) :
    ∀ (fuel : Nat) (b : Board) (st : List (Nat × Nat)) (r c : Nat),
      (b r c).revealed = true → (floodFillAux n fuel b st r c).revealed = true := by
  intro fuel
  induction fuel with
  | zero => intro b st r c h; exact h
  | succ fuel ih =>
    intro b st r c h
    match st with
    | [] => exact h
    | (rr, cc) :: stack =>
      simp only [floodFillAux]
      split
      · exact ih b stack r c h
      · split
        · exact ih _ _ r c (revealAt_mono b rr cc r c h)
        · exact ih _ _ r c (revealAt_mono b rr cc r c h)

theorem floodFillAux_flagged_stable (n : Nat) :
    ∀ (fuel : Nat) (b : Board) (st : List (Nat × Nat)) (r c : Nat),
      (b r c).flagged = true →
      (floodFillAux n fuel b st r c).revealed = (b r c).revealed := by
  intro fuel
  induction fuel with
  | zero => intro b st r c _; rfl
  | succ fuel ih =>
    intro b st r c hfl
    match st with
    | [] => rfl
    | (rr, cc) :: stack =>
      simp only [floodFillAux]
      split
      · exact ih b stack r c hfl
      · rename_i hcur
        have hne : ¬(r = rr ∧ c = cc) := by
          rintro ⟨rfl, rfl⟩
          simp only [Bool.or_eq_true, not_or] at hcur
          exact hcur.2 hfl
        have hb' : revealAt b rr cc r c = b r c := revealAt_other b rr cc r c hne
        split
        · rw [ih _ _ r c (by rw [hb']; exact hfl), hb']
        · rw [ih _ _ r c (by rw [hb']; exact hfl), hb']

theorem floodFillAux_mine_stable (n : Nat) :
    ∀ (fuel : Nat) (b : Board) (st : List (Nat × Nat)) (r c : Nat),
      (∀ p ∈ st, (b p.1 p.2).isMine = false) → (b r c).isMine = true →
      (floodFillAux n fuel b st r c).revealed = (b r c).revealed := by
  intro fuel
  induction fuel with
  | zero => intro b st r c _ _; rfl
  | succ fuel ih =>
    intro b st r c hst hm
    match st with
    | [] => rfl
    | (rr, cc) :: stack =>
      have hrrcc : (b rr cc).isMine = false := hst (rr, cc) (List.mem_cons_self _ _)
      simp only [floodFillAux]
      split
      · exact ih b stack r c (fun p hp => hst p (List.mem_cons_of_mem _ hp)) hm
      · have hne : ¬(r = rr ∧ c = cc) := by
          rintro ⟨rfl, rfl⟩
          rw [hm] at hrrcc
          exact Bool.true_eq_false.mp hrrcc
        have hb' : revealAt b rr cc r c = b r c := revealAt_other b rr cc r c hne
        have hstack' : ∀ p ∈ stack, (revealAt b rr cc p.1 p.2).isMine = false :=
          fun p hp => by
            rw [revealAt_isMine]
            exact hst p (List.mem_cons_of_mem _ hp)
        split
        · have hpush : ∀ p ∈ (pushNeighbors n (revealAt b rr cc) rr cc).reverse ++ stack,
              (revealAt b rr cc p.1 p.2).isMine = false := by
            intro p hp
            rcases List.mem_append.mp hp with hp | hp
            · have := List.of_mem_filter (List.mem_reverse.mp hp)
              simp only [Bool.and_eq_true, Bool.not_eq_true'] at this
              exact this.2
            · exact hstack' p hp
          rw [ih _ _ r c hpush (by rw [revealAt_isMine]; exact hm), hb']
        · rw [ih _ _ r c hstack' (by rw [revealAt_isMine]; exact hm), hb']

theorem floodFill_isMine (n : Nat) (b : Board) (row col r c : Nat) :
    (floodFill n b row col r c).isMine = (b r c).isMine :=
  floodFillAux_isMine n _ b _ r c

theorem floodFill_flagged (n : Nat) (b : Board) (row col r c : Nat) :
    (floodFill n b row col r c).flagged = (b r c).flagged :=
  floodFillAux_flagged n _ b _ r c

theorem floodFill_mono (n : Nat) (b : Board) (row col r c : Nat)
    (h : (b r c).revealed = true) : (floodFill n b row col r c).revealed = true :=
  floodFillAux_mono n _ b _ r c h

/-! ### placeMines invariants -/

theorem setMine_apply (b : Board) (r c r' c' : Nat) :
    setMine b r c r' c'
      = if r' = r ∧ c' = c then { b r c with isMine := true } else b r' c' := rfl

/-- Counting a predicate that became true at exactly one list member. -/
theorem countP_succ_of_flip {l : List (Nat × Nat)} {x : Nat × Nat}
    (hx : x ∈ l) (hnd : l.Nodup) {f g : Nat × Nat → Bool}
    (hfx : f x = false) (hgx : g x = true)
    (hagree : ∀ y ∈ l, y ≠ x → g y = f y) :
    l.countP g = l.countP f + 1 := by
  induction l with
  | nil => cases hx
  | cons a t ih =>
    rcases List.mem_cons.mp hx with rfl | hxt
    · have hxt : x ∉ t := (List.nodup_cons.mp hnd).1
      have hgt : t.countP g = t.countP f := by
        refine List.countP_congr (fun y hy => ?_)
        have hne : y ≠ x := fun h => hxt (h ▸ hy)
        rw [hagree y (List.mem_cons_of_mem _ hy) hne]
      rw [List.countP_cons, List.countP_cons, hgx, hfx, hgt]
      simp
    · have hane : a ≠ x := by
        rintro rfl
        exact (List.nodup_cons.mp hnd).1 hxt
      have hga : g a = f a := hagree a (List.mem_cons_self _ _) hane
      have ht := ih hxt (List.nodup_cons.mp hnd).2
        (fun y hy hne => hagree y (List.mem_cons_of_mem _ hy) hne)
      rw [List.countP_cons, List.countP_cons, hga, ht]
      omega

theorem mineCnt_setMine (n : Nat) (b : Board) {r c : Nat} (hr : r < n)
    (hc : c < n) (hm : (b r c).isMine = false) :
    mineCnt n (setMine b r c) = mineCnt n b + 1 := by
  refine countP_succ_of_flip (x := (r, c)) (mem_allCells.mpr ⟨hr, hc⟩)
    (nodup_allCells n) ?_ ?_ ?_
  · exact hm
  · rw [setMine_apply, if_pos ⟨rfl, rfl⟩]
  · intro y _ hne
    rw [setMine_apply, if_neg]
    rintro ⟨h1, h2⟩
    exact hne (Prod.ext h1 h2)

theorem placeMinesGo_revealed (ex : Nat × Nat) :
    ∀ (samples : List (Nat × Nat)) (b : Board) (k r c : Nat),
      ((placeMinesGo ex samples b k).1 r c).revealed = (b r c).revealed := by
  intro samples
  induction samples with
  | nil => intro b k r c; cases k <;> rfl
  | cons s rest ih =>
    intro b k r c
    obtain ⟨sr, sc⟩ := s
    cases k with
    | zero => rfl
    | succ k =>
      simp only [placeMinesGo]
      split
      · exact ih b (k + 1) r c
      · split
        · exact ih b (k + 1) r c
        · rw [ih]
          simp only [setMine_apply]
          split
          · rename_i h
            rw [h.1, h.2]
          · rfl

theorem placeMinesGo_flagged (ex : Nat × Nat) :
    ∀ (samples : List (Nat × Nat)) (b : Board) (k r c : Nat),
      ((placeMinesGo ex samples b k).1 r c).flagged = (b r c).flagged := by
  intro samples
  induction samples with
  | nil => intro b k r c; cases k <;> rfl
  | cons s rest ih =>
    intro b k r c
    obtain ⟨sr, sc⟩ := s
    cases k with
    | zero => rfl
    | succ k =>
      simp only [placeMinesGo]
      split
      · exact ih b (k + 1) r c
      · split
        · exact ih b (k + 1) r c
        · rw [ih]
          simp only [setMine_apply]
          split
          · rename_i h
            rw [h.1, h.2]
          · rfl

theorem placeMinesGo_zone (ex : Nat × Nat) :
    ∀ (samples : List (Nat × Nat)) (b : Board) (k r c : Nat),
      inZone (r, c) ex = true →
      ((placeMinesGo ex samples b k).1 r c).isMine = (b r c).isMine := by
  intro samples
  induction samples with
  | nil => intro b k r c _; cases k <;> rfl
  | cons s rest ih =>
    intro b k r c hz
    obtain ⟨sr, sc⟩ := s
    cases k with
    | zero => rfl
    | succ k =>
      simp only [placeMinesGo]
      split
      · exact ih b (k + 1) r c hz
      · split
        · exact ih b (k + 1) r c hz
        · rename_i hnz _
          rw [ih _ _ r c hz]
          simp only [setMine_apply]
          rw [if_neg]
          rintro ⟨rfl, rfl⟩
          exact hnz hz

theorem placeMinesGo_count (n : Nat) (ex : Nat × Nat) :
    ∀ (samples : List (Nat × Nat)) (b : Board) (k : Nat),
      (∀ s ∈ samples, s.1 < n ∧ s.2 < n) →
      mineCnt n (placeMinesGo ex samples b k).1 + (placeMinesGo ex samples b k).2
        = mineCnt n b + k := by
  intro samples
  induction samples with
  | nil =>
    intro b k _
    cases k <;> rfl
  | cons s rest ih =>
    intro b k hs
    obtain ⟨sr, sc⟩ := s
    have hsr : sr < n := (hs (sr, sc) (List.mem_cons_self _ _)).1
    have hsc : sc < n := (hs (sr, sc) (List.mem_cons_self _ _)).2
    have hrest : ∀ s ∈ rest, s.1 < n ∧ s.2 < n :=
      fun s h => hs s (List.mem_cons_of_mem _ h)
    cases k with
    | zero => rfl
    | succ k =>
      simp only [placeMinesGo]
      split
      · exact ih b (k + 1) hrest
      · split
        · exact ih b (k + 1) hrest
        · rename_i hmine
          have := ih (setMine b sr sc) k hrest
          rw [mineCnt_setMine n b hsr hsc (Bool.not_eq_true _ ▸ hmine)] at this
          omega

/-! ### computeAdjacency and applyFlags field preservation -/

theorem computeAdjacency_revealed (n : Nat) (b : Board) (r c : Nat) :
    (computeAdjacency n b r c).revealed = (b r c).revealed := by
  simp only [computeAdjacency]
  split
  · split <;> rfl
  · rfl

theorem computeAdjacency_flagged (n : Nat) (b : Board) (r c : Nat) :
    (computeAdjacency n b r c).flagged = (b r c).flagged := by
  simp only [computeAdjacency]
  split
  · split <;> rfl
  · rfl

theorem computeAdjacency_isMine (n : Nat) (b : Board) (r c : Nat) :
    (computeAdjacency n b r c).isMine = (b r c).isMine := by
  simp only [computeAdjacency]
  split
  · split <;> rfl
  · rfl

theorem applyFlags_revealed (b : Board) (s : List (Nat × Nat)) (r c : Nat) :
    (applyFlags b s r c).revealed = (b r c).revealed := by
  simp only [applyFlags]
  split <;> rfl

theorem applyFlags_isMine (b : Board) (s : List (Nat × Nat)) (r c : Nat) :
    (applyFlags b s r c).isMine = (b r c).isMine := by
  simp only [applyFlags]
  split <;> rfl

theorem revealMinesBoard_mono (n : Nat) (b : Board) (r c : Nat)
    (h : (b r c).revealed = true) : (revealMinesBoard n b r c).revealed = true := by
  simp only [revealMinesBoard]
  split
  · rfl
  · exact h

/-! ### The neighborhood lists -/

theorem neighborOffsets_eq :
    neighborOffsets
      = [(-1, -1), (-1, 0), (-1, 1), (0, -1), (0, 1), (1, -1), (1, 0), (1, 1)] := by
  decide

theorem offsetCoord_some_iff {n r c : Nat} {d : Int × Int} {pr pc : Nat} :
    offsetCoord n r c d = some (pr, pc) ↔
      ((pr : Int) = (r : Int) + d.1 ∧ (pc : Int) = (c : Int) + d.2
        ∧ pr < n ∧ pc < n) := by
  simp only [offsetCoord]
  split
  · rename_i h
    simp only [Option.some.injEq, Prod.mk.injEq]
    constructor
    · rintro ⟨h1, h2⟩
      subst h1
      subst h2
      refine ⟨by omega, by omega, by omega, by omega⟩
    · rintro ⟨h1, h2, _, _⟩
      constructor <;> omega
  · rename_i h
    constructor
    · intro h'
      cases h'
    · rintro ⟨h1, h2, h3, h4⟩
      exact absurd (by omega : 0 ≤ (r : Int) + d.1 ∧ (r : Int) + d.1 < n
        ∧ 0 ≤ (c : Int) + d.2 ∧ (c : Int) + d.2 < n) h

theorem mem_neighborsOf {n r c pr pc : Nat} :
    (pr, pc) ∈ neighborsOf n r c ↔
      pr < n ∧ pc < n ∧ ¬(pr = r ∧ pc = c)
        ∧ ((pr : Int) - r).natAbs ≤ 1 ∧ ((pc : Int) - c).natAbs ≤ 1 := by
  simp only [neighborsOf, List.mem_filterMap]
  constructor
  · rintro ⟨d, hd, hsome⟩
    rw [offsetCoord_some_iff] at hsome
    obtain ⟨h1, h2, h3, h4⟩ := hsome
    rw [neighborOffsets_eq] at hd
    simp only [List.mem_cons, List.not_mem_nil, or_false] at hd
    have hb : (-1 ≤ d.1 ∧ d.1 ≤ 1) ∧ (-1 ≤ d.2 ∧ d.2 ≤ 1) ∧ ¬(d.1 = 0 ∧ d.2 = 0) := by
      rcases hd with rfl | rfl | rfl | rfl | rfl | rfl | rfl | rfl <;>
        exact ⟨by decide, by decide, by decide⟩
    refine ⟨h3, h4, by omega, by omega, by omega⟩
  · rintro ⟨h1, h2, h3, h4, h5⟩
    refine ⟨((pr : Int) - r, (pc : Int) - c), ?_, ?_⟩
    · rw [neighborOffsets_eq]
      simp only [List.mem_cons, Prod.mk.injEq, List.not_mem_nil, or_false]
      omega
    · rw [offsetCoord_some_iff]
      exact ⟨by omega, by omega, h1, h2⟩

theorem nodup_neighborsOf (n r c : Nat) : (neighborsOf n r c).Nodup := by
  refine List.Nodup.filterMap ?_ ?_
  · intro d d' p hp hp'
    obtain ⟨pr, pc⟩ := p
    rw [Option.mem_def, offsetCoord_some_iff] at hp hp'
    have h1 : d.1 = d'.1 := by omega
    have h2 : d.2 = d'.2 := by omega
    exact Prod.ext h1 h2
  · rw [neighborOffsets_eq]
    decide

theorem length_neighborsOf_le (n r c : Nat) : (neighborsOf n r c).length ≤ 8 := by
  have h := List.length_filterMap_le (offsetCoord n r c) neighborOffsets
  rw [neighborOffsets_eq] at h
  exact h

/-! ### Adjacency counts: the loop's count equals the spec's
Chebyshev-neighborhood count -/

theorem length_eq_of_nodup_of_mem_iff {l1 l2 : List (Nat × Nat)}
    (h1 : l1.Nodup) (h2 : l2.Nodup) (h : ∀ x, x ∈ l1 ↔ x ∈ l2) :
    l1.length = l2.length := by
  rw [← List.toFinset_card_of_nodup h1, ← List.toFinset_card_of_nodup h2]
  congr 1
  ext x
  rw [List.mem_toFinset, List.mem_toFinset, h x]

theorem adjCount_eq_chebyMineCount (n : Nat) (b : Board) (r c : Nat) :
    adjCount n b r c = (chebyMineCount n b r c : Int) := by
  have key : (neighborsOf n r c).countP (fun p => (b p.1 p.2).isMine)
      = chebyMineCount n b r c := by
    rw [List.countP_eq_length_filter, chebyMineCount]
    refine length_eq_of_nodup_of_mem_iff
      (List.Nodup.filter _ (nodup_neighborsOf n r c))
      (List.Nodup.filter _ (nodup_allCells n)) (fun x => ?_)
    obtain ⟨pr, pc⟩ := x
    simp only [List.mem_filter, mem_neighborsOf, mem_allCells, inZone,
      Bool.and_eq_true, decide_eq_true_eq, ne_eq, Prod.mk.injEq]
    constructor
    · rintro ⟨⟨hb1, hb2, hne, hd1, hd2⟩, hm⟩
      exact ⟨⟨hb1, hb2⟩, ⟨⟨fun h => hne ⟨h.1, h.2⟩, by omega⟩, hm⟩⟩
    · rintro ⟨⟨hb1, hb2⟩, ⟨hne, hd1, hd2⟩, hm⟩
      exact ⟨⟨hb1, hb2, fun h => hne ⟨h.1, h.2⟩, by omega, by omega⟩, hm⟩
  rw [adjCount, key]

theorem adjCount_nonneg (n : Nat) (b : Board) (r c : Nat) :
    0 ≤ adjCount n b r c := Int.natCast_nonneg _

theorem adjCount_le_eight (n : Nat) (b : Board) (r c : Nat) :
    adjCount n b r c ≤ 8 := by
  rw [adjCount]
  have h1 : (neighborsOf n r c).countP (fun p => (b p.1 p.2).isMine)
      ≤ (neighborsOf n r c).length := List.countP_le_length _
  have h2 := length_neighborsOf_le n r c
  omega

/-! ### The 1-2-1 center-exclusive set is contained in the two flanks -/

theorem exclusives121_h_sub (n : Nat) (b : Board) (r c : Nat) (hc : 1 ≤ c) :
    ∀ p ∈ exclusives121 n b (r, c) (r, c - 1) (r, c + 1),
      p = (r, c - 1) ∨ p = (r, c + 1) := by
  intro p hp
  obtain ⟨pr, pc⟩ := p
  simp only [exclusives121, List.mem_filter, Bool.and_eq_true, decide_eq_true_eq] at hp
  obtain ⟨⟨hmem, hnotl, hnotr⟩, _⟩ := hp
  rw [mem_neighborsOf] at hmem
  obtain ⟨hb1, hb2, hne, hd1, hd2⟩ := hmem
  rw [mem_neighborsOf] at hnotl hnotr
  simp only [Prod.mk.injEq]
  omega

theorem exclusives121_v_sub (n : Nat) (b : Board) (r c : Nat) (hr : 1 ≤ r) :
    ∀ p ∈ exclusives121 n b (r, c) (r - 1, c) (r + 1, c),
      p = (r - 1, c) ∨ p = (r + 1, c) := by
  intro p hp
  obtain ⟨pr, pc⟩ := p
  simp only [exclusives121, List.mem_filter, Bool.and_eq_true, decide_eq_true_eq] at hp
  obtain ⟨⟨hmem, hnotl, hnotr⟩, _⟩ := hp
  rw [mem_neighborsOf] at hmem
  obtain ⟨hb1, hb2, hne, hd1, hd2⟩ := hmem
  rw [mem_neighborsOf] at hnotl hnotr
  simp only [Prod.mk.injEq]
  omega

theorem exclusives121_h_nil (n : Nat) (b : Board) (r c : Nat) (hc : 1 ≤ c)
    (hl : (b r (c - 1)).revealed = true) (hr2 : (b r (c + 1)).revealed = true) :
    exclusives121 n b (r, c) (r, c - 1) (r, c + 1) = [] := by
  rw [List.eq_nil_iff_forall_not_mem]
  intro p hp
  have hsub := exclusives121_h_sub n b r c hc p hp
  simp only [exclusives121, List.mem_filter, Bool.and_eq_true,
    Bool.not_eq_true'] at hp
  obtain ⟨-, hhid, -⟩ := hp
  rcases hsub with rfl | rfl
  · rw [hl] at hhid
    cases hhid
  · rw [hr2] at hhid
    cases hhid

theorem exclusives121_v_nil (n : Nat) (b : Board) (r c : Nat) (hr : 1 ≤ r)
    (hu : (b (r - 1) c).revealed = true) (hd : (b (r + 1) c).revealed = true) :
    exclusives121 n b (r, c) (r - 1, c) (r + 1, c) = [] := by
  rw [List.eq_nil_iff_forall_not_mem]
  intro p hp
  have hsub := exclusives121_v_sub n b r c hr p hp
  simp only [exclusives121, List.mem_filter, Bool.and_eq_true,
    Bool.not_eq_true'] at hp
  obtain ⟨-, hhid, -⟩ := hp
  rcases hsub with rfl | rfl
  · rw [hu] at hhid
    cases hhid
  · rw [hd] at hhid
    cases hhid

/-! ### Small helpers -/

theorem floodFillAux_nil (n : Nat) :
    ∀ (fuel : Nat) (b : Board), floodFillAux n fuel b [] = b := by
  intro fuel b
  cases fuel <;> rfl

theorem pickIn_mem {l : List (Nat × Nat)} (h : l ≠ []) (pick : Nat) :
    pickIn l pick ∈ l := by
  have hlen : pick % l.length < l.length :=
    Nat.mod_lt _ (List.length_pos.mpr h)
  rw [pickIn, List.getD_eq_getElem l _ hlen]
  exact List.getElem_mem hlen

/-! ### C1: placeMines -/

/-- C1, counterexample.  On a 4×4 board that already holds a mine at the
excluded cell `(0, 0)`, `placeMines(board, 1, (0,0))` finishes (remainder
0) with the sample stream `[(3, 3)]`, yet the resulting board has 2 mines,
not exactly 1, and the pre-existing mine inside the Chebyshev-1 exclusion
zone survives — refuting the claim's quantification over all boards. -/
theorem c1_counterexample :
    (placeMinesGo (0, 0) [(3, 3)] bPre 1).2 = 0
      ∧ mineCnt 4 (placeMines [(3, 3)] bPre 1 (0, 0)) = 2
      ∧ (placeMines [(3, 3)] bPre 1 (0, 0) 0 0).isMine = true
      ∧ inZone (0, 0) (0, 0) = true
      ∧ ¬mineCnt 4 (placeMines [(3, 3)] bPre 1 (0, 0)) = 1 := by
  decide

/-- C1, amended: on a board with no pre-existing mines (every call site
passes such a board), if the rejection-sampling loop finishes, the result
has exactly `m` mines and no mine within Chebyshev distance 1 of
`exclude`. -/
theorem c1_amended (n : Nat) (samples : List (Nat × Nat)) (b : Board)
    (m : Nat) (ex : Nat × Nat)
    (hb : ∀ p ∈ allCells n, (b p.1 p.2).isMine = false)
    (hs : ∀ s ∈ samples, s.1 < n ∧ s.2 < n)
    (hdone : (placeMinesGo ex samples b m).2 = 0) :
    mineCnt n (placeMines samples b m ex) = m
      ∧ ∀ p ∈ allCells n, inZone p ex = true →
          (placeMines samples b m ex p.1 p.2).isMine = false := by
  constructor
  · have h := placeMinesGo_count n ex samples b m hs
    have hb0 : mineCnt n b = 0 :=
      List.countP_eq_zero.mpr (fun p hp => by rw [hb p hp]; exact Bool.false_ne_true)
    rw [hdone, hb0] at h
    rw [placeMines]
    omega
  · intro p hp hz
    rw [placeMines, placeMinesGo_zone ex samples b m p.1 p.2 hz]
    exact hb p hp

/-- C1, witness: a concrete completed placement of 2 mines on an empty 3×3
board excluding `(0, 0)`. -/
theorem c1_witness :
    mineCnt 3 (placeMines [(2, 2), (0, 2)] createEmptyBoard 2 (0, 0)) = 2
      ∧ (placeMines [(2, 2), (0, 2)] createEmptyBoard 2 (0, 0) 1 1).isMine
          = false := by
  have h := c1_amended 3 [(2, 2), (0, 2)] createEmptyBoard 2 (0, 0)
    (by decide) (by decide) (by decide)
  exact ⟨h.1, h.2 (1, 1) (by decide) (by decide)⟩

/-! ### C2: floodFill -/

/-- C2, counterexample.  `floodFill` checks `flagged` when popping but
checks `isMine` only when pushing, so the starting cell is revealed even
when it is an unflagged mine: on the 1×1 board whose only cell is an
unflagged mine, `floodFill` sets `revealed = true` on a mined cell,
refuting the claim's "including the starting cell" part. -/
theorem c2_counterexample :
    (bMine1 0 0).isMine = true ∧ (bMine1 0 0).flagged = false
      ∧ (bMine1 0 0).revealed = false
      ∧ (floodFill 1 bMine1 0 0 0 0).revealed = true := by
  decide

/-- C2, amended: `floodFill` never reveals a flagged cell, and never
reveals a mined cell other than the starting cell itself. -/
theorem c2_amended (n : Nat) (b : Board) (row col r c : Nat) :
    ((b r c).flagged = true →
      (floodFill n b row col r c).revealed = (b r c).revealed)
    ∧ ((b r c).isMine = true → ¬(r = row ∧ c = col) →
      (floodFill n b row col r c).revealed = (b r c).revealed) := by
  constructor
  · exact floodFillAux_flagged_stable n _ b _ r c
  · intro hm hne
    obtain ⟨K, hK⟩ : ∃ K, floodFillFuel n = K + 1 :=
      ⟨9 * n * n + 8, by simp [floodFillFuel]⟩
    rw [floodFill, hK]
    simp only [floodFillAux]
    split
    · rw [floodFillAux_nil]
    · have hb' : revealAt b row col r c = b r c := revealAt_other b row col r c hne
      have hm' : (revealAt b row col r c).isMine = true := by
        rw [revealAt_isMine]
        exact hm
      split
      · have hpush : ∀ p ∈ (pushNeighbors n (revealAt b row col) row col).reverse
            ++ ([] : List (Nat × Nat)),
            (revealAt b row col p.1 p.2).isMine = false := by
          intro p hp
          rcases List.mem_append.mp hp with hp | hp
          · have := List.of_mem_filter (List.mem_reverse.mp hp)
            simp only [Bool.and_eq_true, Bool.not_eq_true'] at this
            exact this.2
          · cases hp
        rw [floodFillAux_mine_stable n K _ _ r c hpush hm', hb']
      · have hnil : ∀ p ∈ ([] : List (Nat × Nat)),
            (revealAt b row col p.1 p.2).isMine = false := by
          intro p hp
          cases hp
        rw [floodFillAux_mine_stable n K _ _ r c hnil hm', hb']

/-- C2, witness: flood-filling `bW2` from `(0, 0)` leaves the flagged cell
`(0, 1)` and the non-starting mine `(1, 1)` unrevealed. -/
theorem c2_witness :
    (floodFill 2 bW2 0 0 0 1).revealed = false
      ∧ (floodFill 2 bW2 0 0 1 1).revealed = false := by
  constructor
  · have h := (c2_amended 2 bW2 0 0 0 1).1 (by decide)
    rw [h]
    decide
  · have h := (c2_amended 2 bW2 0 0 1 1).2 (by decide) (by decide)
    rw [h]
    decide

/-! ### C3: computeAdjacency -/

/-- C3: after `computeAdjacency`, every in-bounds mined cell carries the
sentinel `-1` and every in-bounds safe cell carries the exact number of
mines among its in-bounds Chebyshev-distance-1 neighbors, a value between
0 and 8. -/
theorem c3_theorem (n : Nat) (b : Board) (r c : Nat) (hr : r < n) (hc : c < n) :
    ((b r c).isMine = true → (computeAdjacency n b r c).adjacent = -1)
    ∧ ((b r c).isMine = false →
        (computeAdjacency n b r c).adjacent = (chebyMineCount n b r c : Int)
          ∧ 0 ≤ (computeAdjacency n b r c).adjacent
          ∧ (computeAdjacency n b r c).adjacent ≤ 8) := by
  constructor
  · intro hm
    simp only [computeAdjacency, if_pos (And.intro hr hc), hm]
    rfl
  · intro hm
    simp only [computeAdjacency, if_pos (And.intro hr hc), hm]
    refine ⟨adjCount_eq_chebyMineCount n b r c, adjCount_nonneg n b r c,
      adjCount_le_eight n b r c⟩

/-- C3, witness: the cell `(0, 1)` of `bW3` gets adjacency 1, the exact
mine count of its neighborhood. -/
theorem c3_witness :
    (computeAdjacency 2 bW3 0 1).adjacent = (chebyMineCount 2 bW3 0 1 : Int)
      ∧ chebyMineCount 2 bW3 0 1 = 1
      ∧ (computeAdjacency 2 bW3 0 0).adjacent = -1 := by
  refine ⟨((c3_theorem 2 bW3 0 1 (by decide) (by decide)).2 (by decide)).1,
    by decide, (c3_theorem 2 bW3 0 0 (by decide) (by decide)).1 (by decide)⟩

/-! ### C4: the 1-2-1 pattern rule -/

/-- C4: the "center-exclusive" candidate set computed by the 1-2-1 scan is
always a subset of the two flanking cells themselves (horizontally and
vertically), so once the guard demands the flanks be revealed the set is
empty and the rule can never flag anything; on the classic 1-2-1 board
`b121` the guard holds, the flag bucket stays empty, and `hardAi`
publishes boards with no flags at all — against the specified Scenario C
behavior. -/
theorem c4_theorem :
    (∀ (n : Nat) (b : Board) (r c : Nat), 1 ≤ c →
        (b r (c - 1)).revealed = true → (b r (c + 1)).revealed = true →
        exclusives121 n b (r, c) (r, c - 1) (r, c + 1) = [])
    ∧ (∀ (n : Nat) (b : Board) (r c : Nat), 1 ≤ r →
        (b (r - 1) c).revealed = true → (b (r + 1) c).revealed = true →
        exclusives121 n b (r, c) (r - 1, c) (r + 1, c) = [])
    ∧ is121 b121 (1, 0) (1, 1) (1, 2) = true
    ∧ hardToFlag 3 b121 = []
    ∧ (hardAi 0 [] ctx121).all (noFlagsPublishedB 3) = true := by
  refine ⟨exclusives121_h_nil, exclusives121_v_nil, by decide, by decide, by decide⟩

/-- C4, witness: the horizontal emptiness fact applied to the concrete
1-2-1 row of `b121`. -/
theorem c4_witness :
    exclusives121 3 b121 (1, 1) (1, 0) (1, 2) = [] :=
  c4_theorem.1 3 b121 1 1 (by decide) (by decide) (by decide)

/-! ### C5: the ground-truth fallback of hardAi -/

theorem flagEffs_not_lost (m n : Nat) (t : List (Nat × Nat)) (b : Board) :
    (flagEffs m n t b).all (fun e => !e.isLostB) = true := by
  rw [flagEffs]
  split
  · rfl
  · rfl

theorem winEffects_not_lost (n : Nat) (b : Board) :
    (winEffects n b).all (fun e => !e.isLostB) = true := by
  rw [winEffects]
  split
  · rfl
  · rfl

/-- C5: when the session has started, no deduction or pattern rule
produced an open, and a hidden, unflagged, non-mine cell exists, the cell
the ground-truth fallback opens is not a mine and the whole invocation
never sets the terminal state "lost". -/
theorem c5_theorem (pick : Nat) (samples : List (Nat × Nat)) (ctx : Ctx)
    (hstart : ctx.started = true) (hded : hardDeductionFailed ctx)
    (hsafe : hardSafeCands ctx ≠ []) :
    ((hardFlagged ctx.gridSize ctx.board)
        (pickIn (hardSafeCands ctx) pick).1
        (pickIn (hardSafeCands ctx) pick).2).isMine = false
      ∧ (hardAi pick samples ctx).all (fun e => !e.isLostB) = true := by
  obtain ⟨h1, h2, h3⟩ := hded
  constructor
  · have hmem : pickIn (hardSafeCands ctx) pick ∈ List.filter
        (fun p => !((hardFlagged ctx.gridSize ctx.board) p.1 p.2).isMine)
        (hiddenUnflagged ctx.gridSize (hardFlagged ctx.gridSize ctx.board)) :=
      pickIn_mem hsafe pick
    have h := List.of_mem_filter hmem
    simpa using h
  · have hse : ((hiddenUnflagged ctx.gridSize (hardFlagged ctx.gridSize ctx.board)).filter
        (fun p => !((hardFlagged ctx.gridSize ctx.board) p.1 p.2).isMine)).isEmpty = false :=
      List.isEmpty_eq_false.mpr hsafe
    simp only [hardAi, hardAiRest, cloneBoard, hstart, Bool.not_true, Bool.false_and,
      Bool.false_eq_true, if_false, h1, h2, h3, hse, Bool.not_false, if_true,
      Bool.true_eq_false]
    rw [List.all_append, List.all_append]
    rw [flagEffs_not_lost, winEffects_not_lost]
    rfl

/-- C5, witness: on the all-covered started 2×2 position `ctx5` the
fallback picks the safe cell `(0, 0)` and the run never sets "lost". -/
theorem c5_witness :
    ((hardFlagged ctx5.gridSize ctx5.board)
        (pickIn (hardSafeCands ctx5) 0).1
        (pickIn (hardSafeCands ctx5) 0).2).isMine = false
      ∧ (hardAi 0 [] ctx5).all (fun e => !e.isLostB) = true :=
  c5_theorem 0 [] ctx5 (by decide) ⟨by decide, by decide, by decide⟩ (by decide)

/-! ### C6: the hint cap -/

/-- C6, counterexample.  On a session whose only cell is flagged, every
hint call returns "none" and never increments the counter, so the 4th call
of the session returns "none", not "done" — refuting the claim's flat
"the 4th call returns done".  (Each call's trace is empty, so the board is
unchanged between the calls.) -/
theorem c6_counterexample :
    (hint 0 0 [] ctxF).res = HintRes.noSafe
      ∧ (hint 0 0 [] ctxF).trace.length = 0
      ∧ (hint ((hint 0 0 [] ctxF).uses) 0 [] ctxF).res = HintRes.noSafe
      ∧ (hint ((hint ((hint 0 0 [] ctxF).uses) 0 [] ctxF).uses) 0 [] ctxF).res
          = HintRes.noSafe
      ∧ (hint ((hint ((hint ((hint 0 0 [] ctxF).uses) 0 [] ctxF).uses) 0 []
          ctxF).uses) 0 [] ctxF).res = HintRes.noSafe
      ∧ ¬HintRes.noSafe = HintRes.done := by
  decide

/-- C6, amended: every invocation made while the hint counter is at (or
beyond) its cap of 3 returns "done", leaves the counter unchanged and
emits no effect at all; in particular a session's 4th call behaves that way
whenever the first three calls each succeeded without completing the
game. -/
theorem c6_amended (uses pick : Nat) (samples : List (Nat × Nat)) (ctx : Ctx)
    (h : 3 ≤ uses) :
    (hint uses pick samples ctx).res = HintRes.done
      ∧ (hint uses pick samples ctx).uses = uses
      ∧ (hint uses pick samples ctx).trace = [] := by
  simp only [hint, maxHints]
  rw [if_pos h]
  exact ⟨rfl, rfl, rfl⟩

/-- C6, witness: a concrete call at the cap. -/
theorem c6_witness :
    (hint 3 0 [] ctxF).res = HintRes.done
      ∧ (hint 3 0 [] ctxF).uses = 3
      ∧ (hint 3 0 [] ctxF).trace = [] :=
  c6_amended 3 0 [] ctxF (by decide)

/-! ### C7: win finalisation after a successful hint -/

/-- C7, counterexample.  The first-click branch of `hint` performs no win
check: on the 4×4 session `ctx7` with 12 mines, the first hint reveals the
whole safe region, the published board satisfies the win predicate, yet
the call returns "good" with counter 1, never calls `setGameOver`, and
never resets the counter — refuting the claim's "including the first-click
branch". -/
theorem c7_counterexample :
    (hint 0 0 samples7 ctx7).res = HintRes.good
      ∧ (hint 0 0 samples7 ctx7).uses = 1
      ∧ (hint 0 0 samples7 ctx7).trace.all (fun e => !e.isGameOverB) = true
      ∧ (publishedBoards (hint 0 0 samples7 ctx7).trace).all (checkWin 4) = true
      ∧ (publishedBoards (hint 0 0 samples7 ctx7).trace).length = 1 := by
  decide

/-- C7, amended: for a successful hint in the started branch, if the win
predicate holds on the published board, the call sets terminal "won",
reveals all mines, and resets the counter to zero.  (The first-click
branch returns "good" without any win check.) -/
theorem c7_amended (uses pick : Nat) (samples : List (Nat × Nat)) (ctx : Ctx)
    (hu : uses < 3) (hnw : checkWin ctx.gridSize ctx.board = false)
    (hstart : ctx.started = true) (hsafe : hintSafe ctx ≠ [])
    (hwin : checkWin ctx.gridSize
        (floodFill ctx.gridSize ctx.board (hintPick ctx pick).1
          (hintPick ctx pick).2) = true) :
    (hint uses pick samples ctx).res = HintRes.good
      ∧ (hint uses pick samples ctx).uses = 0
      ∧ (hint uses pick samples ctx).trace
          = [Effect.setBoard (floodFill ctx.gridSize ctx.board
               (hintPick ctx pick).1 (hintPick ctx pick).2),
             Effect.setGameOver GameOutcome.won, Effect.revealMinesEff] := by
  have hcand : (hiddenUnflagged ctx.gridSize ctx.board).isEmpty = false := by
    rw [List.isEmpty_eq_false]
    intro hc
    apply hsafe
    simp [hintSafe, hc]
  have hses : ((hiddenUnflagged ctx.gridSize ctx.board).filter
      (fun p => !(ctx.board p.1 p.2).isMine)).isEmpty = false :=
    List.isEmpty_eq_false.mpr hsafe
  simp only [hintPick, hintSafe] at hwin
  simp only [hint, cloneBoard, maxHints, hnw, hstart, Bool.not_true, hcand,
    Bool.false_eq_true, if_false, hses]
  rw [if_neg (by omega : ¬(3 ≤ uses)), if_pos hwin]
  exact ⟨rfl, rfl, rfl⟩

/-- C7, witness: a concrete winning started-branch hint on `ctxW7`. -/
theorem c7_witness :
    (hint 0 0 [] ctxW7).res = HintRes.good
      ∧ (hint 0 0 [] ctxW7).uses = 0
      ∧ (hint 0 0 [] ctxW7).trace
          = [Effect.setBoard (floodFill ctxW7.gridSize ctxW7.board
               (hintPick ctxW7 0).1 (hintPick ctxW7 0).2),
             Effect.setGameOver GameOutcome.won, Effect.revealMinesEff] :=
  c7_amended 0 0 [] ctxW7 (by decide) (by decide) (by decide) (by decide)
    (by decide)

/-! ### C8: easyAi on an already-won board -/

/-- C8: if the board already satisfies the win predicate, `easyAi` returns
with an empty effect trace — it calls none of `setBoard`, `setStarted`,
`setGameOver`, `revealMines`. -/
theorem c8_theorem (pick : Nat) (samples : List (Nat × Nat)) (ctx : Ctx)
    (h : checkWin ctx.gridSize ctx.board = true) :
    easyAi pick samples ctx = [] := by
  simp [easyAi, h]

/-- C8, witness: a concrete already-won context. -/
theorem c8_witness : easyAi 0 [] ctx8 = [] :=
  c8_theorem 0 [] ctx8 (by decide)

/-! ### Reveal monotonicity of the primitive operations -/

theorem revealMono_refl (b : Board) : revealMono b b := fun _ _ h => h

theorem revealMono_trans {a b c : Board} (h1 : revealMono a b)
    (h2 : revealMono b c) : revealMono a c :=
  fun r cc h => h2 r cc (h1 r cc h)

theorem revealMono_floodFill (n : Nat) (b : Board) (row col : Nat) :
    revealMono b (floodFill n b row col) :=
  fun r c h => floodFill_mono n b row col r c h

theorem revealMono_revealAt (b : Board) (rr cc : Nat) :
    revealMono b (revealAt b rr cc) :=
  fun r c h => revealAt_mono b rr cc r c h

theorem revealMono_applyFlags (b : Board) (s : List (Nat × Nat)) :
    revealMono b (applyFlags b s) := by
  intro r c h
  rw [applyFlags_revealed]
  exact h

theorem revealMono_placeMines (samples : List (Nat × Nat)) (b : Board)
    (m : Nat) (ex : Nat × Nat) : revealMono b (placeMines samples b m ex) := by
  intro r c h
  rw [placeMines, placeMinesGo_revealed]
  exact h

theorem revealMono_computeAdjacency (n : Nat) (b : Board) :
    revealMono b (computeAdjacency n b) := by
  intro r c h
  rw [computeAdjacency_revealed]
  exact h

theorem revealMono_unflagAt (b : Board) (rr cc : Nat) :
    revealMono b (setCell b rr cc (fun x => { x with flagged := false })) := by
  intro r c h
  rw [setCell_apply]
  split
  · rename_i hrc
    obtain ⟨h1, h2⟩ := hrc
    subst h1
    subst h2
    exact h
  · exact h

theorem revealMono_revealMinesBoard (n : Nat) (b : Board) :
    revealMono b (revealMinesBoard n b) :=
  fun r c h => revealMinesBoard_mono n b r c h

/-! ### Published boards of the trace combinators -/

theorem publishedBoards_append (t1 t2 : List Effect) :
    publishedBoards (t1 ++ t2) = publishedBoards t1 ++ publishedBoards t2 := by
  unfold publishedBoards
  exact List.filterMap_append _ _ _

theorem publishedBoards_winEffects (n : Nat) (b : Board) :
    publishedBoards (winEffects n b) = [] := by
  rw [winEffects]
  split <;> rfl

theorem publishedBoards_flagEffs (m n : Nat) (t : List (Nat × Nat)) (b : Board) :
    publishedBoards (flagEffs m n t b) = [] := by
  rw [flagEffs]
  split <;> rfl

theorem publishedBoards_openTarget (n : Nat) (b : Board) (rr cc : Nat) :
    publishedBoards (openTarget n b rr cc).2 = [(openTarget n b rr cc).1] := by
  unfold openTarget
  split
  · rfl
  · rw [publishedBoards_append, publishedBoards_winEffects]
    rfl

theorem openTarget_mono (n : Nat) (b : Board) (rr cc : Nat) :
    revealMono b (openTarget n b rr cc).1 := by
  unfold openTarget
  split
  · exact revealMono_revealAt b rr cc
  · exact revealMono_floodFill n b rr cc

theorem openOne_mono (n : Nat) (b : Board) (bucket : List (Nat × Nat)) :
    revealMono b (openOne n b bucket).board := by
  unfold openOne
  split
  · exact revealMono_refl b
  · split
    · exact revealMono_revealAt b _ _
    · exact revealMono_floodFill n b _ _

theorem openOne_pub (n : Nat) (b : Board) (bucket : List (Nat × Nat)) :
    ∀ b' ∈ publishedBoards (openOne n b bucket).trace,
      b' = (openOne n b bucket).board := by
  unfold openOne
  split
  · intro b' hb'
    cases hb'
  · split
    · intro b' hb'
      simp only [publishedBoards, List.filterMap_cons, List.filterMap_nil,
        List.mem_singleton] at hb'
      exact hb'
    · intro b' hb'
      cases hb'

theorem openCommit_pub (n : Nat) (o : OpenOut)
    (hp : ∀ b' ∈ publishedBoards o.trace, b' = o.board) :
    ∀ b' ∈ publishedBoards (openCommit n o), b' = o.board := by
  intro b' hb'
  rw [openCommit, publishedBoards_append, publishedBoards_append,
    publishedBoards_winEffects, List.append_nil] at hb'
  rcases List.mem_append.mp hb' with h | h
  · exact hp b' h
  · rcases h with _ | ⟨_, h⟩
    · rfl
    · cases h

theorem publishedBoards_startEff (v : Bool) :
    publishedBoards (if v then [] else [Effect.setStarted true]) = [] := by
  split <;> rfl

/-! ### Nonnegative flag counters in the trace combinators -/

theorem flagNonnegB_setFlagsLeft (k : Int) :
    Effect.flagNonnegB (Effect.setFlagsLeft k) = decide (0 ≤ k) := rfl

theorem winEffects_flagNonneg (n : Nat) (b : Board) :
    (winEffects n b).all Effect.flagNonnegB = true := by
  rw [winEffects]
  split <;> rfl

theorem flagEffs_flagNonneg (m n : Nat) (t : List (Nat × Nat)) (b : Board) :
    (flagEffs m n t b).all Effect.flagNonnegB = true := by
  rw [flagEffs]
  split
  · rfl
  · simp only [List.all_cons, List.all_nil, Bool.and_true,
      flagNonnegB_setFlagsLeft, flagsLeftVal]
    exact decide_eq_true (le_max_left 0 _)

theorem openTarget_flagNonneg (n : Nat) (b : Board) (rr cc : Nat) :
    ((openTarget n b rr cc).2).all Effect.flagNonnegB = true := by
  unfold openTarget
  split
  · rfl
  · rw [List.all_append]
    rw [winEffects_flagNonneg]
    rfl

theorem openOne_flagNonneg (n : Nat) (b : Board) (bucket : List (Nat × Nat)) :
    ((openOne n b bucket).trace).all Effect.flagNonnegB = true := by
  unfold openOne
  split
  · rfl
  · split <;> rfl

theorem openCommit_flagNonneg (n : Nat) (o : OpenOut)
    (h : o.trace.all Effect.flagNonnegB = true) :
    (openCommit n o).all Effect.flagNonnegB = true := by
  rw [openCommit, List.all_append, List.all_append, h, winEffects_flagNonneg]
  rfl

theorem startEff_flagNonneg (v : Bool) :
    (if v then [] else [Effect.setStarted true]).all Effect.flagNonnegB
      = true := by
  split <;> rfl

/-! ### The shared random fallback -/

theorem randomFallback_pub_mono (pick : Nat) (samples : List (Nat × Nat))
    (ctx : Ctx) (b1 : Board) (flagEff : List Effect) (didFlag : Bool)
    (hb1 : revealMono ctx.board b1)
    (hfe : publishedBoards flagEff = []) :
    ∀ b' ∈ publishedBoards (randomFallback pick samples ctx b1 flagEff didFlag),
      revealMono ctx.board b' := by
  intro b' hb'
  unfold randomFallback at hb'
  dsimp only at hb'
  split at hb'
  · rw [publishedBoards_append, publishedBoards_append, hfe,
      publishedBoards_startEff, publishedBoards_openTarget] at hb'
    rcases hb' with _ | ⟨_, h⟩
    · refine revealMono_trans hb1 (revealMono_trans ?_ (openTarget_mono _ _ _ _))
      split
      · exact revealMono_refl b1
      · exact revealMono_trans (revealMono_placeMines _ _ _ _)
          (revealMono_computeAdjacency _ _)
    · cases h
  · split at hb'
    · rw [publishedBoards_append, publishedBoards_append, hfe,
        publishedBoards_openTarget] at hb'
      rcases hb' with _ | ⟨_, h⟩
      · exact revealMono_trans hb1
          (revealMono_trans (revealMono_unflagAt _ _ _) (openTarget_mono _ _ _ _))
      · cases h
    · split at hb'
      · rw [publishedBoards_append, publishedBoards_append, hfe,
          publishedBoards_winEffects, List.append_nil] at hb'
        rcases hb' with _ | ⟨_, h⟩
        · exact hb1
        · cases h
      · rw [hfe] at hb'
        cases hb'

theorem randomFallback_flagNonneg (pick : Nat) (samples : List (Nat × Nat))
    (ctx : Ctx) (b1 : Board) (flagEff : List Effect) (didFlag : Bool)
    (hfe : flagEff.all Effect.flagNonnegB = true) :
    (randomFallback pick samples ctx b1 flagEff didFlag).all
      Effect.flagNonnegB = true := by
  unfold randomFallback
  dsimp only
  split
  · rw [List.all_append, List.all_append, hfe, startEff_flagNonneg,
      openTarget_flagNonneg]
    rfl
  · split
    · rw [List.all_append, List.all_append, hfe, openTarget_flagNonneg]
      simp only [List.all_cons, List.all_nil, Bool.and_true,
        flagNonnegB_setFlagsLeft, flagsLeftVal]
      rw [decide_eq_true (le_max_left 0 _)]
      rfl
    · split
      · rw [List.all_append, List.all_append, hfe, winEffects_flagNonneg]
        rfl
      · exact hfe

/-! ### Published-board monotonicity of each solver -/

theorem easyAi_pub_mono (pick : Nat) (samples : List (Nat × Nat)) (ctx : Ctx) :
    ∀ b' ∈ publishedBoards (easyAi pick samples ctx), revealMono ctx.board b' := by
  intro b' hb'
  unfold easyAi at hb'
  dsimp only at hb'
  split at hb'
  · cases hb'
  · split at hb'
    · cases hb'
    · rw [publishedBoards_append, publishedBoards_startEff,
        publishedBoards_openTarget, List.nil_append] at hb'
      rw [List.mem_singleton.mp hb']
      refine revealMono_trans ?_ (openTarget_mono _ _ _ _)
      split
      · exact revealMono_refl _
      · exact revealMono_trans (revealMono_placeMines _ _ _ _)
          (revealMono_computeAdjacency _ _)

theorem hint_pub_mono (uses pick : Nat) (samples : List (Nat × Nat)) (ctx : Ctx) :
    ∀ b' ∈ publishedBoards (hint uses pick samples ctx).trace,
      revealMono ctx.board b' := by
  intro b' hb'
  unfold hint at hb'
  dsimp only at hb'
  split at hb'
  · cases hb'
  · split at hb'
    · cases hb'
    · split at hb'
      · cases hb'
      · split at hb'
        · simp only [publishedBoards, List.filterMap_cons, List.filterMap_nil,
            List.mem_singleton] at hb'
          rw [hb']
          exact revealMono_trans (revealMono_trans (revealMono_placeMines _ _ _ _)
            (revealMono_computeAdjacency _ _)) (revealMono_floodFill _ _ _ _)
        · split at hb'
          · cases hb'
          · split at hb'
            · simp only [publishedBoards, List.filterMap_cons, List.filterMap_nil,
                List.mem_singleton] at hb'
              rw [hb']
              exact revealMono_floodFill _ _ _ _
            · simp only [publishedBoards, List.filterMap_cons, List.filterMap_nil,
                List.mem_singleton] at hb'
              rw [hb']
              exact revealMono_floodFill _ _ _ _

theorem mediumAi_pub_mono (pick : Nat) (samples : List (Nat × Nat)) (ctx : Ctx) :
    ∀ b' ∈ publishedBoards (mediumAi pick samples ctx), revealMono ctx.board b' := by
  intro b' hb'
  unfold mediumAi at hb'
  dsimp only at hb'
  split at hb'
  · rw [publishedBoards_append, publishedBoards_flagEffs, List.nil_append] at hb'
    rw [openCommit_pub _ _ (openOne_pub _ _ _) b' hb']
    exact revealMono_trans (revealMono_applyFlags _ _) (openOne_mono _ _ _)
  · split at hb'
    · rw [publishedBoards_append, publishedBoards_flagEffs, List.nil_append] at hb'
      rw [openCommit_pub _ _ (openOne_pub _ _ _) b' hb']
      exact revealMono_trans (revealMono_applyFlags _ _) (openOne_mono _ _ _)
    · split at hb'
      · rw [publishedBoards_append, publishedBoards_flagEffs, List.nil_append] at hb'
        rw [openCommit_pub _ _ (openOne_pub _ _ _) b' hb']
        exact revealMono_trans (revealMono_applyFlags _ _) (openOne_mono _ _ _)
      · exact randomFallback_pub_mono _ _ _ _ _ _ (revealMono_applyFlags _ _)
          (publishedBoards_flagEffs _ _ _ _) b' hb'

theorem hardAiRest_pub_mono (pick : Nat) (samples : List (Nat × Nat)) (ctx : Ctx) :
    ∀ b' ∈ publishedBoards (hardAiRest pick samples ctx), revealMono ctx.board b' := by
  intro b' hb'
  unfold hardAiRest at hb'
  dsimp only at hb'
  split at hb'
  · rw [publishedBoards_append, publishedBoards_flagEffs, List.nil_append] at hb'
    rw [openCommit_pub _ _ (openOne_pub _ _ _) b' hb']
    exact revealMono_trans (revealMono_applyFlags _ _) (openOne_mono _ _ _)
  · split at hb'
    · rw [publishedBoards_append, publishedBoards_flagEffs, List.nil_append] at hb'
      rw [openCommit_pub _ _ (openOne_pub _ _ _) b' hb']
      exact revealMono_trans (revealMono_applyFlags _ _) (openOne_mono _ _ _)
    · split at hb'
      · rw [publishedBoards_append, publishedBoards_flagEffs, List.nil_append] at hb'
        rw [openCommit_pub _ _ (openOne_pub _ _ _) b' hb']
        exact revealMono_trans (revealMono_applyFlags _ _) (openOne_mono _ _ _)
      · split at hb'
        · split at hb'
          · rw [publishedBoards_append, publishedBoards_append,
              publishedBoards_flagEffs,
              (show publishedBoards [Effect.setStarted true] = [] from rfl),
              publishedBoards_openTarget, List.nil_append, List.nil_append] at hb'
            rw [List.mem_singleton.mp hb']
            exact revealMono_trans (revealMono_applyFlags _ _)
              (revealMono_trans (revealMono_trans (revealMono_placeMines _ _ _ _)
                (revealMono_computeAdjacency _ _)) (openTarget_mono _ _ _ _))
          · exact randomFallback_pub_mono _ _ _ _ _ _ (revealMono_applyFlags _ _)
              (publishedBoards_flagEffs _ _ _ _) b' hb'
        · split at hb'
          · rw [publishedBoards_append, publishedBoards_append,
              publishedBoards_flagEffs, publishedBoards_winEffects,
              List.nil_append, List.append_nil] at hb'
            rw [List.mem_singleton.mp hb']
            exact revealMono_trans (revealMono_applyFlags _ _)
              (revealMono_floodFill _ _ _ _)
          · exact randomFallback_pub_mono _ _ _ _ _ _ (revealMono_applyFlags _ _)
              (publishedBoards_flagEffs _ _ _ _) b' hb'

theorem hardAi_pub_mono (pick : Nat) (samples : List (Nat × Nat)) (ctx : Ctx) :
    ∀ b' ∈ publishedBoards (hardAi pick samples ctx), revealMono ctx.board b' := by
  intro b' hb'
  unfold hardAi at hb'
  dsimp only at hb'
  split at hb'
  · rw [publishedBoards_append,
      (show publishedBoards [Effect.setStarted true] = [] from rfl),
      publishedBoards_openTarget, List.nil_append] at hb'
    rw [List.mem_singleton.mp hb']
    exact revealMono_trans (revealMono_trans (revealMono_placeMines _ _ _ _)
      (revealMono_computeAdjacency _ _)) (openTarget_mono _ _ _ _)
  · exact hardAiRest_pub_mono _ _ _ b' hb'

/-! ### Every published flag counter is nonnegative -/

theorem mediumAi_flagNonneg (pick : Nat) (samples : List (Nat × Nat)) (ctx : Ctx) :
    (mediumAi pick samples ctx).all Effect.flagNonnegB = true := by
  unfold mediumAi
  dsimp only
  split
  · rw [List.all_append, flagEffs_flagNonneg,
      openCommit_flagNonneg _ _ (openOne_flagNonneg _ _ _)]
    rfl
  · split
    · rw [List.all_append, flagEffs_flagNonneg,
        openCommit_flagNonneg _ _ (openOne_flagNonneg _ _ _)]
      rfl
    · split
      · rw [List.all_append, flagEffs_flagNonneg,
          openCommit_flagNonneg _ _ (openOne_flagNonneg _ _ _)]
        rfl
      · exact randomFallback_flagNonneg _ _ _ _ _ _ (flagEffs_flagNonneg _ _ _ _)

theorem hardAiRest_flagNonneg (pick : Nat) (samples : List (Nat × Nat)) (ctx : Ctx) :
    (hardAiRest pick samples ctx).all Effect.flagNonnegB = true := by
  unfold hardAiRest
  dsimp only
  split
  · rw [List.all_append, flagEffs_flagNonneg,
      openCommit_flagNonneg _ _ (openOne_flagNonneg _ _ _)]
    rfl
  · split
    · rw [List.all_append, flagEffs_flagNonneg,
        openCommit_flagNonneg _ _ (openOne_flagNonneg _ _ _)]
      rfl
    · split
      · rw [List.all_append, flagEffs_flagNonneg,
          openCommit_flagNonneg _ _ (openOne_flagNonneg _ _ _)]
        rfl
      · split
        · split
          · rw [List.all_append, List.all_append, flagEffs_flagNonneg,
              openTarget_flagNonneg]
            rfl
          · exact randomFallback_flagNonneg _ _ _ _ _ _ (flagEffs_flagNonneg _ _ _ _)
        · split
          · rw [List.all_append, List.all_append, flagEffs_flagNonneg,
              winEffects_flagNonneg]
            rfl
          · exact randomFallback_flagNonneg _ _ _ _ _ _ (flagEffs_flagNonneg _ _ _ _)

theorem hardAi_flagNonneg (pick : Nat) (samples : List (Nat × Nat)) (ctx : Ctx) :
    (hardAi pick samples ctx).all Effect.flagNonnegB = true := by
  unfold hardAi
  dsimp only
  split
  · rw [List.all_append, openTarget_flagNonneg]
    rfl
  · exact hardAiRest_flagNonneg _ _ _

/-! ### The first flag emission equals the clamped formula -/

theorem mediumAi_shape (pick : Nat) (samples : List (Nat × Nat)) (ctx : Ctx) :
    ∃ rest, mediumAi pick samples ctx
      = flagEffs ctx.mines ctx.gridSize (rule1Bucket ctx.gridSize ctx.board)
          (applyFlags ctx.board (rule1Bucket ctx.gridSize ctx.board)) ++ rest := by
  unfold mediumAi randomFallback
  dsimp only
  split
  · exact ⟨_, rfl⟩
  · split
    · exact ⟨_, rfl⟩
    · split
      · exact ⟨_, rfl⟩
      · split
        · exact ⟨_, List.append_assoc _ _ _⟩
        · split
          · exact ⟨_, List.append_assoc _ _ _⟩
          · split
            · exact ⟨_, List.append_assoc _ _ _⟩
            · exact ⟨[], (List.append_nil _).symm⟩

theorem hardAiRest_shape (pick : Nat) (samples : List (Nat × Nat)) (ctx : Ctx) :
    ∃ rest, hardAiRest pick samples ctx
      = flagEffs ctx.mines ctx.gridSize (hardToFlag ctx.gridSize ctx.board)
          (hardFlagged ctx.gridSize ctx.board) ++ rest := by
  unfold hardAiRest randomFallback
  dsimp only
  split
  · exact ⟨_, rfl⟩
  · split
    · exact ⟨_, rfl⟩
    · split
      · exact ⟨_, rfl⟩
      · split
        · split
          · exact ⟨_, List.append_assoc _ _ _⟩
          · split
            · exact ⟨_, List.append_assoc _ _ _⟩
            · split
              · exact ⟨_, List.append_assoc _ _ _⟩
              · exact ⟨[], (List.append_nil _).symm⟩
        · split
          · exact ⟨_, List.append_assoc _ _ _⟩
          · split
            · exact ⟨_, List.append_assoc _ _ _⟩
            · split
              · exact ⟨_, List.append_assoc _ _ _⟩
              · split
                · exact ⟨_, List.append_assoc _ _ _⟩
                · exact ⟨[], (List.append_nil _).symm⟩

theorem flagEffs_head (m n : Nat) (t : List (Nat × Nat)) (b : Board)
    (rest : List Effect) (h : t ≠ []) :
    (flagEffs m n t b ++ rest).head?
      = some (Effect.setFlagsLeft (flagsLeftVal m n b)) := by
  rw [flagEffs, if_neg (by simpa using h)]
  rfl

theorem mediumAi_head (pick : Nat) (samples : List (Nat × Nat)) (ctx : Ctx)
    (h : rule1Bucket ctx.gridSize ctx.board ≠ []) :
    (mediumAi pick samples ctx).head?
      = some (Effect.setFlagsLeft (flagsLeftVal ctx.mines ctx.gridSize
          (applyFlags ctx.board (rule1Bucket ctx.gridSize ctx.board)))) := by
  obtain ⟨rest, hshape⟩ := mediumAi_shape pick samples ctx
  rw [hshape, flagEffs_head _ _ _ _ _ h]

theorem hardAi_head (pick : Nat) (samples : List (Nat × Nat)) (ctx : Ctx)
    (hstart : ctx.started = true)
    (h : hardToFlag ctx.gridSize ctx.board ≠ []) :
    (hardAi pick samples ctx).head?
      = some (Effect.setFlagsLeft (flagsLeftVal ctx.mines ctx.gridSize
          (hardFlagged ctx.gridSize ctx.board))) := by
  obtain ⟨rest, hshape⟩ := hardAiRest_shape pick samples ctx
  unfold hardAi
  dsimp only
  rw [hstart]
  simp only [Bool.not_true, Bool.false_and, Bool.false_eq_true, if_false]
  rw [hshape, flagEffs_head _ _ _ _ _ h]

/-! ### C9: the published flag counter -/

/-- C9, counterexample.  On `ctx9` (1 configured mine) `mediumAi` flags
the mine deduced by Rule 1 next to a pre-existing flag, giving 2 flags on
the published board; the claim demands the published value
`mines − flagged = 1 − 2 = −1`, but the solver publishes
`Math.max(0, …) = 0`. -/
theorem c9_counterexample :
    flagsLeftPayloads (mediumAi 0 [] ctx9) = [0]
      ∧ (publishedBoards (mediumAi 0 [] ctx9)).map (flaggedCnt 3) = [2]
      ∧ ctx9.mines = 1
      ∧ ¬((0 : Int) = (1 : Int) - (2 : Int)) := by
  decide

/-- C9, amended: every flag count a solver publishes equals
`max 0 (mineCount − flagged)` of the working board at that emission — in
particular it is never negative; when the deduced flags are applied, the
first effect of the trace carries exactly that clamped value. -/
theorem c9_amended (pick : Nat) (samples : List (Nat × Nat)) (ctx : Ctx) :
    (mediumAi pick samples ctx).all Effect.flagNonnegB = true
      ∧ (hardAi pick samples ctx).all Effect.flagNonnegB = true
      ∧ (rule1Bucket ctx.gridSize ctx.board ≠ [] →
          (mediumAi pick samples ctx).head?
            = some (Effect.setFlagsLeft (flagsLeftVal ctx.mines ctx.gridSize
                (applyFlags ctx.board (rule1Bucket ctx.gridSize ctx.board)))))
      ∧ (ctx.started = true → hardToFlag ctx.gridSize ctx.board ≠ [] →
          (hardAi pick samples ctx).head?
            = some (Effect.setFlagsLeft (flagsLeftVal ctx.mines ctx.gridSize
                (hardFlagged ctx.gridSize ctx.board)))) :=
  ⟨mediumAi_flagNonneg pick samples ctx, hardAi_flagNonneg pick samples ctx,
   mediumAi_head pick samples ctx,
   fun hs h => hardAi_head pick samples ctx hs h⟩

/-- C9, witness: the amended statement applied to the concrete run on
`ctx9`. -/
theorem c9_witness :
    (mediumAi 0 [] ctx9).all Effect.flagNonnegB = true
      ∧ (mediumAi 0 [] ctx9).head?
          = some (Effect.setFlagsLeft (flagsLeftVal ctx9.mines ctx9.gridSize
              (applyFlags ctx9.board (rule1Bucket ctx9.gridSize ctx9.board)))) :=
  ⟨(c9_amended 0 [] ctx9).1, (c9_amended 0 [] ctx9).2.2.1 (by decide)⟩

/-! ### C10: reveal monotonicity across every core operation -/

/-- C10: no core operation un-reveals a cell.  `floodFill` only adds
reveals; `placeMines` and `computeAdjacency` never touch `revealed`;
`revealMines` only adds reveals; and every board published by `easyAi`,
`mediumAi`, `hardAi` or `hint` keeps every cell that was revealed in the
input board revealed. -/
theorem c10_theorem :
    (∀ (n : Nat) (b : Board) (row col r c : Nat),
        (b r c).revealed = true → (floodFill n b row col r c).revealed = true)
      ∧ (∀ (samples : List (Nat × Nat)) (b : Board) (m : Nat) (ex : Nat × Nat)
          (r c : Nat),
          (placeMines samples b m ex r c).revealed = (b r c).revealed)
      ∧ (∀ (n : Nat) (b : Board) (r c : Nat),
          (computeAdjacency n b r c).revealed = (b r c).revealed)
      ∧ (∀ (n : Nat) (b : Board) (r c : Nat),
          (b r c).revealed = true → (revealMinesBoard n b r c).revealed = true)
      ∧ (∀ (pick : Nat) (samples : List (Nat × Nat)) (ctx : Ctx),
          ∀ b' ∈ publishedBoards (easyAi pick samples ctx),
            revealMono ctx.board b')
      ∧ (∀ (pick : Nat) (samples : List (Nat × Nat)) (ctx : Ctx),
          ∀ b' ∈ publishedBoards (mediumAi pick samples ctx),
            revealMono ctx.board b')
      ∧ (∀ (pick : Nat) (samples : List (Nat × Nat)) (ctx : Ctx),
          ∀ b' ∈ publishedBoards (hardAi pick samples ctx),
            revealMono ctx.board b')
      ∧ (∀ (uses pick : Nat) (samples : List (Nat × Nat)) (ctx : Ctx),
          ∀ b' ∈ publishedBoards (hint uses pick samples ctx).trace,
            revealMono ctx.board b') :=
  ⟨floodFill_mono,
   fun samples b m ex r c => by rw [placeMines, placeMinesGo_revealed],
   computeAdjacency_revealed, revealMinesBoard_mono, easyAi_pub_mono,
   mediumAi_pub_mono, hardAi_pub_mono, hint_pub_mono⟩

/-- C10, witness: the flood-fill part and the hint part applied to a
concrete run on `ctxW7` whose published board keeps the previously
revealed cells revealed. -/
theorem c10_witness :
    (floodFill 2 bW7 1 0 0 0).revealed = true
      ∧ ((floodFill ctxW7.gridSize ctxW7.board (hintPick ctxW7 0).1
          (hintPick ctxW7 0).2) 0 1).revealed = true := by
  constructor
  · exact c10_theorem.1 2 bW7 1 0 0 0 (by decide)
  · have htr : (hint 0 0 [] ctxW7).trace
        = [Effect.setBoard (floodFill ctxW7.gridSize ctxW7.board
            (hintPick ctxW7 0).1 (hintPick ctxW7 0).2),
           Effect.setGameOver GameOutcome.won, Effect.revealMinesEff] := rfl
    have hmem : floodFill ctxW7.gridSize ctxW7.board (hintPick ctxW7 0).1
        (hintPick ctxW7 0).2 ∈ publishedBoards (hint 0 0 [] ctxW7).trace := by
      rw [htr]
      simp only [publishedBoards, List.filterMap_cons, List.filterMap_nil]
      exact List.mem_singleton.mpr rfl
    exact c10_theorem.2.2.2.2.2.2.2 0 0 [] ctxW7 _ hmem 0 1 (by decide)

end Minesweeper
